import Mathlib

/-
Verification of the OpenViking real-time context sync daemon
(src/scripts/viking_daemon.py) against its natural-language specification.

Shallow embedding conventions: message text is `List Char` (the monitored
files are treated at byte = ASCII character granularity), wall-clock times
are rationals, and fallible filesystem or network operations are modelled by
explicit outcome values.  Standard-library facilities the daemon calls but
that are not part of this repository (json.loads, hashlib.md5, the local
timezone day formatter of datetime) enter as function parameters of the
definitions that use them.
-/

namespace Viking

/-! ### Configuration constants

The daemon reads these from environment variables with the defaults below
(viking_daemon.py lines 43-53); the development fixes them at their default
values.  `FAST_POLL_INTERVAL_SEC` carries the floor-at-1 applied by the
source expression `max(1, int(...))`. -/

def IDLE_TIMEOUT_SEC : Int := 300

def POLL_INTERVAL_SEC : Int := 30

def FAST_POLL_INTERVAL_SEC : Int := max 1 3

def SESSION_TTL_SEC : Int := 7200

def MAX_TRACKED_SESSIONS : Nat := 240

def MAX_FILE_CURSORS : Nat := 800

def MAX_MESSAGES_PER_SESSION : Nat := 500

/-! ### Python string primitives

`str.strip()` and the regex class `\s` of the redaction patterns, restricted
to the ASCII whitespace characters; no monitored content in the claims under
study exercises the non-ASCII extension. -/

def isPySpace (c : Char) : Bool :=
  c = ' ' || c = '\t' || c = '\n' || c = Char.ofNat 11 || c = Char.ofNat 12 || c = '\r'

def pyStripEnd (l : List Char) : List Char :=
  (l.reverse.dropWhile isPySpace).reverse

/-- Python `str.strip()`: drop leading and trailing whitespace. -/
def pyStrip (l : List Char) : List Char :=
  pyStripEnd (l.dropWhile isPySpace)

/-! ### Secret redaction (SECRET_REPLACEMENTS, viking_daemon.py lines 111-118)

Each compiled pattern is embedded as an executable matcher that attempts the
regex at the head of a character list and, on success, returns the text of
capture group 1 together with the remainder after the whole match.  The
substitution `pattern.sub` is the left-to-right non-overlapping scan
`scanStarSub`, emitting `group1 ++ "***"` for the five keyed patterns and
the constant `sk-***` for the bare-key pattern. -/

/-- Case-insensitive literal match (the first five patterns carry
re.IGNORECASE); returns the consumed original characters and the rest. -/
def matchLitCI : List Char → List Char → Option (List Char × List Char)
  | [], l => some ([], l)
  | _ :: _, [] => none
  | p :: ps, c :: cs =>
    if c.toLower = p then (matchLitCI ps cs).map (fun g => (c :: g.1, g.2)) else none

/-- Case-sensitive literal match (the sk- pattern has no flags). -/
def matchLit : List Char → List Char → Option (List Char × List Char)
  | [], l => some ([], l)
  | _ :: _, [] => none
  | p :: ps, c :: cs =>
    if c = p then (matchLit ps cs).map (fun g => (c :: g.1, g.2)) else none

/-- The value class of the keyed patterns: one or more characters that are
neither whitespace nor a double or single quote. -/
def isKVValueChar (c : Char) : Bool :=
  !(isPySpace c) && c ≠ '"' && c ≠ Char.ofNat 39

/-- Shared tail of the three `word\s*[=:]\s*value` patterns: greedy
whitespace, one of `=` `:`, greedy whitespace, then a non-empty greedy value
run.  `g0` is the group-1 text accumulated so far; the whitespace and the
separator belong to group 1, the value run is group 2 (discarded by the
starred replacement). -/
def matchKVTail (g0 : List Char) (l : List Char) : Option (List Char × List Char) :=
  let s1 := l.span isPySpace
  match s1.2 with
  | [] => none
  | c :: r2 =>
    if c = '=' || c = ':' then
      let s2 := r2.span isPySpace
      let s3 := s2.2.span isKVValueChar
      if s3.1.isEmpty then none
      else some (g0 ++ s1.1 ++ c :: s2.1, s3.2)
    else none

def litApi : List Char := "api".toList

def litKey : List Char := "key".toList

def litToken : List Char := "token".toList

def litPassword : List Char := "password".toList

def litApiKeyFlag : List Char := "--api-key".toList

def litTokenFlag : List Char := "--token".toList

/-- Pattern `(api[_-]?key\s*[=:]\s*)([^\s"']+)` with the one-step
backtracking of the optional `[_-]?`: try consuming a `_` or `-` first, fall
back to the empty alternative if the rest of the pattern then fails. -/
def tryApiKey (l : List Char) : Option (List Char × List Char) :=
  match matchLitCI litApi l with
  | none => none
  | some g1 =>
    let noOpt : Option (List Char × List Char) :=
      match matchLitCI litKey g1.2 with
      | none => none
      | some g2 => matchKVTail (g1.1 ++ g2.1) g2.2
    match g1.2 with
    | [] => noOpt
    | c :: r =>
      if c = '_' || c = '-' then
        match matchLitCI litKey r with
        | none => noOpt
        | some g2 =>
          match matchKVTail (g1.1 ++ c :: g2.1) g2.2 with
          | none => noOpt
          | some res => some res
      else noOpt

/-- Patterns `(token\s*[=:]\s*)([^\s"']+)` and `(password\s*[=:]\s*)([^\s"']+)`. -/
def tryKeyColon (word : List Char) (l : List Char) : Option (List Char × List Char) :=
  match matchLitCI word l with
  | none => none
  | some g => matchKVTail g.1 g.2

/-- Patterns `(--api-key\s+)([^\s]+)` and `(--token\s+)([^\s]+)`. -/
def tryFlag (word : List Char) (l : List Char) : Option (List Char × List Char) :=
  match matchLitCI word l with
  | none => none
  | some g =>
    let s1 := g.2.span isPySpace
    if s1.1.isEmpty then none
    else
      let s2 := s1.2.span (fun c => !(isPySpace c))
      if s2.1.isEmpty then none
      else some (g.1 ++ s1.1, s2.2)

def stars : List Char := "***".toList

/-- `pattern.sub(r"\1***", text)`: left-to-right non-overlapping scan; after
a match the scan resumes on the remainder of the original text.  The fuel
argument (instantiated with the input length) bounds the recursion; every
successful match consumes at least one character so the fuel never runs out. -/
def scanStarSub (tm : List Char → Option (List Char × List Char)) :
    Nat → List Char → List Char
  | 0, l => l
  | _ + 1, [] => []
  | fuel + 1, c :: cs =>
    match tm (c :: cs) with
    | some g => g.1 ++ stars ++ scanStarSub tm fuel g.2
    | none => c :: scanStarSub tm fuel cs

/-- The regex word class `[A-Za-z0-9_]` used by the boundary assertions. -/
def isWordChar (c : Char) : Bool :=
  ('a' ≤ c && c ≤ 'z') || ('A' ≤ c && c ≤ 'Z') || ('0' ≤ c && c ≤ '9') || c = '_'

def isSkClassChar (c : Char) : Bool :=
  isWordChar c || c = '-'

def litSk : List Char := "sk-".toList

def skRepl : List Char := "sk-***".toList

/-- Trailing `\b` check when the token keeps the first `k` characters of the
greedy class run: exactly one of (last kept character, following character)
is a word character; past the end of input counts as non-word. -/
def skBoundAfter (run rest : List Char) (k : Nat) : Bool :=
  let lastc := (run.take k).getLastD 'x'
  let next : Option Char := if k < run.length then (run.drop k).head? else rest.head?
  let nextWord := match next with | some c => isWordChar c | none => false
  isWordChar lastc != nextWord

/-- Greedy `{16,}` with backtracking against the trailing `\b`: largest
`k ≤ run.length` with `16 ≤ k` whose boundary check holds. -/
def skPickLen (run rest : List Char) : Nat → Option Nat
  | 0 => none
  | k + 1 =>
    if k + 1 < 16 then none
    else if skBoundAfter run rest (k + 1) then some (k + 1)
    else skPickLen run rest k

/-- Pattern `\b(sk-[A-Za-z0-9_-]{16,})\b`; `prev` is the character preceding
the match position in the original text (none at the start of the string). -/
def trySk (prev : Option Char) (l : List Char) : Option (List Char × List Char) :=
  let boundaryStart := match prev with | none => true | some c => !(isWordChar c)
  if boundaryStart then
    match matchLit litSk l with
    | none => none
    | some g =>
      let s := g.2.span isSkClassChar
      match skPickLen s.1 s.2 s.1.length with
      | none => none
      | some k => some (g.1 ++ s.1.take k, s.1.drop k ++ s.2)
  else none

/-- `SECRET_REPLACEMENTS[5].sub("sk-***", text)` with the previous-character
threading the word boundary needs. -/
def scanSkSub : Nat → Option Char → List Char → List Char
  | 0, _, l => l
  | _ + 1, _, [] => []
  | fuel + 1, prev, c :: cs =>
    match trySk prev (c :: cs) with
    | some g => skRepl ++ scanSkSub fuel (g.1.getLastD 'k') g.2
    | none => c :: scanSkSub fuel (some c) cs

def applySub (tm : List Char → Option (List Char × List Char)) (l : List Char) : List Char :=
  scanStarSub tm l.length l

/-- The `for pattern, repl in SECRET_REPLACEMENTS: out = pattern.sub(repl, out)`
loop of `_sanitize_text`, in source order. -/
def applyRedactions (l : List Char) : List Char :=
  let o1 := applySub tryApiKey l
  let o2 := applySub (tryKeyColon litToken) o1
  let o3 := applySub (tryKeyColon litPassword) o2
  let o4 := applySub (tryFlag litApiKeyFlag) o3
  let o5 := applySub (tryFlag litTokenFlag) o4
  scanSkSub o5.length none o5

/-- `_sanitize_text` (viking_daemon.py lines 500-508): empty in, empty out;
otherwise strip, apply the six redactions in order, truncate to 4000. -/
def _sanitize_text (text : List Char) : List Char :=
  if text.isEmpty then []
  else
    let out1 := pyStrip text
    let out2 := applyRedactions out1
    if 4000 < out2.length then out2.take 4000 else out2

/-! ### JSON values and the extraction helpers -/

/-- Decoded JSONL records (`json.loads` output restricted to the shapes the
daemon probes; numeric fields only occur as session ids, where Python only
distinguishes `str` from `int`). -/
inductive JVal where
  | jnull
  | jbool (b : Bool)
  | jnum (n : Int)
  | jstr (s : String)
  | jarr (items : List JVal)
  | jobj (fields : List (String × JVal))

/-- `data.get(key)`: first binding of the key in the object, none otherwise. -/
def JVal.get : JVal → String → Option JVal
  | .jobj fields, k => (fields.find? (fun f => f.1 == k)).map Prod.snd
  | _, _ => none

/-- `isinstance(val, (str, int))` and Python `str(val)` for those two cases. -/
def sidString : Option JVal → Option String
  | some (.jstr s) => some s
  | some (.jnum n) => some (toString n)
  | _ => none

/-- `_extract_sid` (lines 443-448): probe the session-id keys in order for a
str or int whose string form is non-blank; else `<source>_default`. -/
def _extract_sid (data : JVal) (sid_keys : List String) (source_name : String) : String :=
  match sid_keys with
  | [] => source_name ++ "_default"
  | k :: ks =>
    match sidString (data.get k) with
    | some s => if (pyStrip s.toList).isEmpty then _extract_sid data ks source_name else s
    | none => _extract_sid data ks source_name

/-- One element of the `parts` fallback scan: a dict whose `type` equals
`"text"` and whose `text` is a non-blank string contributes its stripped
text. -/
def partText : JVal → Option (List Char)
  | .jobj fields =>
    match (JVal.jobj fields).get "type" with
    | some (.jstr t) =>
      if t = "text" then
        match (JVal.jobj fields).get "text" with
        | some (.jstr s) => if (pyStrip s.toList).isEmpty then none else some (pyStrip s.toList)
        | _ => none
      else none
    | _ => none
  | _ => none

/-- `"\n".join(...)`. -/
def joinNL : List (List Char) → List Char
  | [] => []
  | [x] => x
  | x :: xs => x ++ '\n' :: joinNL xs

/-- `_extract_text` (lines 450-470): probe the text keys in order for a
non-blank string (returned stripped); otherwise scan the `parts` array,
prepending a non-blank top-level `input` string if present. -/
def _extract_text (data : JVal) (text_keys : List String) : List Char :=
  match text_keys with
  | k :: ks =>
    match data.get k with
    | some (.jstr s) => if (pyStrip s.toList).isEmpty then _extract_text data ks else pyStrip s.toList
    | _ => _extract_text data ks
  | [] =>
    match data.get "parts" with
    | some (.jarr parts) =>
      let tps := parts.filterMap partText
      if tps.isEmpty then []
      else
        let pre : List Char :=
          match data.get "input" with
          | some (.jstr s) => s.toList
          | _ => []
        if (pyStrip pre).isEmpty then joinNL tps
        else pyStrip pre ++ '\n' :: joinNL tps
    | _ => []

/-- Per-source key configuration from JSONL_SOURCES (lines 55-99); the
candidate path is configuration for source discovery and does not enter the
extraction logic. -/
structure SourceCfg where
  sid_keys : List String
  text_keys : List String
deriving DecidableEq

def opencodeCfg : SourceCfg :=
  { sid_keys := ["session_id", "sessionId", "id"], text_keys := ["input", "prompt", "text"] }

def claudeCodeCfg : SourceCfg :=
  { sid_keys := ["sessionId", "session_id"], text_keys := ["display", "text", "input", "prompt"] }

/-! ### Association lists

Python `dict[str, _]` with its insertion-order iteration: an update keeps an
entry in place, an insertion appends, `del` removes the entry of the key. -/

/-- `m.get(k)`: value of the first entry with key `k`. -/
def lookupA {α : Type} : List (String × α) → String → Option α
  | [], _ => none
  | kv :: rest, k => if kv.1 = k then some kv.2 else lookupA rest k

/-- `m[k] = v`: update the entry in place when the key exists, append
otherwise (dict insertion order). -/
def setA {α : Type} : List (String × α) → String → α → List (String × α)
  | [], k, v => [(k, v)]
  | kv :: rest, k, v => if kv.1 = k then (kv.1, v) :: rest else kv :: setA rest k v

/-- `del m[k]`: remove the entry with key `k`. -/
def eraseA {α : Type} : List (String × α) → String → List (String × α)
  | [], _ => []
  | kv :: rest, k => if kv.1 = k then rest else kv :: eraseA rest k

/-! ### Sessions and tracker state -/

structure Session where
  last_seen : ℚ
  messages : List (List Char)
  exported : Bool
  source : String
  created : ℚ
  last_hash : String
deriving DecidableEq

/-- The mutable fields of SessionTracker the claims under study touch.
`error_logs` counts the `logger.error` calls issued by the tailers, so the
logging half of the transient-I/O contract is observable in the model. -/
structure TrackerState where
  sessions : List (String × Session)
  file_cursors : List (String × Nat)
  error_count : Nat
  error_logs : Nat
  last_activity_ts : ℚ
deriving DecidableEq

/-- `min(entries, key=lambda x: x[1]["last_seen"])`: Python min keeps the
first minimal element in iteration order, matched by the strict comparison
of the fold. -/
def minByLastSeen : List (String × Session) → Option String
  | [] => none
  | kv :: rest =>
    some ((rest.foldl (fun best kv2 => if kv2.2.last_seen < best.2.last_seen then kv2 else best) kv).1)

/-- `_evict_oldest` (lines 537-544): drop the exported session with the
oldest last_seen if any session is exported, else the oldest overall. -/
def _evict_oldest (sessions : List (String × Session)) : List (String × Session) :=
  let ex := sessions.filter (fun kv => kv.2.exported)
  match minByLastSeen ex with
  | some k => eraseA sessions k
  | none =>
    match minByLastSeen sessions with
    | some k => eraseA sessions k
    | none => sessions

def newSession (source : String) (now : ℚ) : Session :=
  { last_seen := now, messages := [], exported := false, source := source,
    created := now, last_hash := "" }

/-- `_upsert_session` (lines 511-535).  `hash` stands for the hexdigest of
hashlib.md5 on the utf-8 encoding of the text. -/
def _upsert_session (hash : List Char → String) (st : TrackerState)
    (sid source : String) (text : List Char) (now : ℚ) : TrackerState :=
  let sessions0 :=
    if (lookupA st.sessions sid).isSome then st.sessions
    else
      let base :=
        if MAX_TRACKED_SESSIONS ≤ st.sessions.length then _evict_oldest st.sessions
        else st.sessions
      base ++ [(sid, newSession source now)]
  match lookupA sessions0 sid with
  | none => { st with sessions := sessions0 }
  | some sess =>
    let digest := hash text
    if digest = sess.last_hash then { st with sessions := sessions0 }
    else
      let ms := sess.messages ++ [text]
      let ms := if MAX_MESSAGES_PER_SESSION < ms.length then ms.drop (ms.length - 200) else ms
      let sess2 := { sess with messages := ms, last_hash := digest, last_seen := now }
      { st with sessions := setA sessions0 sid sess2, last_activity_ts := now }

/-- Message-count threshold of the idle sweep: 4 for shell sources, 2
otherwise.  `source.startswith("shell_")` is the character-level prefix
test. -/
def exportThreshold (source : String) : Nat :=
  if "shell_".toList.isPrefixOf source.toList then 4 else 2

/-- Per-session step of `check_and_export_idle`: (updated entry, marked for
TTL removal, sid exported on this sweep). -/
def sweepOne (now : ℚ) (kv : String × Session) : (String × Session) × Bool × Option String :=
  let s := kv.2
  if s.exported then
    if (SESSION_TTL_SEC : ℚ) < now - s.last_seen then (kv, true, none) else (kv, false, none)
  else if now - s.last_seen ≤ (IDLE_TIMEOUT_SEC : ℚ) then (kv, false, none)
  else
    let ev := if exportThreshold s.source ≤ s.messages.length then some kv.1 else none
    ((kv.1, { s with exported := true }), false, ev)

/-- The iteration of `check_and_export_idle` over `self.sessions.items()`:
updated surviving entries in order (the `to_remove` entries deleted after
the loop as in the source), together with the sids passed to `_export`, in
sweep order. -/
def sweepSessions (now : ℚ) : List (String × Session) → List (String × Session) × List String
  | [] => ([], [])
  | kv :: rest =>
    let one := sweepOne now kv
    let r := sweepSessions now rest
    (if one.2.1 then r.1 else one.1 :: r.1,
     match one.2.2 with
     | some sid => sid :: r.2
     | none => r.2)

/-- `check_and_export_idle` (lines 546-567): walk the sessions in order,
export idle-expired unexported sessions that meet the threshold, set the
exported flag on every idle-expired unexported session, then delete the
exported sessions that have been unseen past the TTL. -/
def check_and_export_idle (st : TrackerState) (now : ℚ) : TrackerState × List String :=
  let r := sweepSessions now st.sessions
  ({ st with sessions := r.1 }, r.2)

/-! ### Cursor cleanup -/

/-- Insertion sort with a boolean comparator, standing for Python `sorted`. -/
def insertLe {α : Type} (le : α → α → Bool) (a : α) : List α → List α
  | [] => [a]
  | b :: bs => if le a b then a :: b :: bs else b :: insertLe le a bs

def insertionSort {α : Type} (le : α → α → Bool) : List α → List α
  | [] => []
  | a :: rest => insertLe le a (insertionSort le rest)

def strLe (a b : String) : Bool := decide (a ≤ b)

/-- `cleanup_cursors` (lines 569-576): when the cursor table exceeds its cap,
delete the first `max(1, n // 3)` keys in sorted order. -/
def cleanup_cursors (cursors : List (String × Nat)) : List (String × Nat) :=
  if cursors.length ≤ MAX_FILE_CURSORS then cursors
  else
    let keys := insertionSort strLe (cursors.map Prod.fst)
    let remove_n := max 1 (cursors.length / 3)
    (keys.take remove_n).foldl (fun m k => eraseA m k) cursors

/-! ### Adaptive sleep -/

/-- Python `int()` on a float: truncation toward zero. -/
def pyInt (q : ℚ) : Int := if q < 0 then ⌈q⌉ else ⌊q⌋

/-- One step of the `nearest_due` fold of `next_sleep_interval` (lines
690-696): skip exported sessions, otherwise keep the smaller of the
accumulator and `IDLE_TIMEOUT_SEC - (now - last_seen)`. -/
def nearestStep (now : ℚ) (acc : Option ℚ) (kv : String × Session) : Option ℚ :=
  if kv.2.exported then acc
  else
    let remaining := (IDLE_TIMEOUT_SEC : ℚ) - (now - kv.2.last_seen)
    match acc with
    | none => some remaining
    | some d => if remaining < d then some remaining else acc

/-- The `nearest_due` fold: minimum of the remaining idle time over the
non-exported sessions, none when there is no such session. -/
def nearestDue (sessions : List (String × Session)) (now : ℚ) : Option ℚ :=
  sessions.foldl (nearestStep now) none

/-- `next_sleep_interval` (lines 679-707).  `outboxNonempty` is the result of
the `PENDING_DIR.glob("*.md")` non-emptiness test. -/
def next_sleep_interval (st : TrackerState) (outboxNonempty : Bool) (now : ℚ) : Int :=
  let s1 : Int := max 1 POLL_INTERVAL_SEC
  let s2 : Int := if outboxNonempty then min s1 FAST_POLL_INTERVAL_SEC else s1
  let s3 : Int :=
    match nearestDue st.sessions now with
    | none => s2
    | some d =>
      if d ≤ (FAST_POLL_INTERVAL_SEC : ℚ) then min s2 FAST_POLL_INTERVAL_SEC
      else if d < (s2 : ℚ) then min s2 (max 1 (pyInt d)) else s2
  let s4 : Int :=
    if st.last_activity_ts ≠ 0 ∧
        now - st.last_activity_ts < ((max 15 (FAST_POLL_INTERVAL_SEC * 4) : Int) : ℚ) then
      min s3 FAST_POLL_INTERVAL_SEC
    else s3
  max 1 s4

/-! ### Tailer passes

A monitored file during one pass is summed up by a `FileOutcome`:
`sizeErr` is an OSError from `os.path.getsize`; `content bytes rf` gives the
bytes of the file, with `rf = none` when the open-seek-read block completes
and `rf = some k` when it raises after `k` lines were already processed
(`k = 0` covers a failing `open`). -/

inductive FileOutcome where
  | sizeErr
  | content (bytes : List Char) (rf : Option Nat)
deriving DecidableEq

/-- The line iteration of a text-mode file object after `seek`: the
remainder of the byte list split at newlines (the per-line `strip()` of the
consumers makes the dropped terminators irrelevant). -/
def splitLines : List Char → List (List Char)
  | [] => []
  | c :: cs =>
    if c = '\n' then [] :: splitLines cs
    else
      match splitLines cs with
      | [] => [[c]]
      | l :: ls => (c :: l) :: ls

/-- The loop body of `_poll_jsonl_file` (lines 271-286): strip, decode
(`jsonParse` standing for json.loads, none on JSONDecodeError), extract sid
and text, sanitize, drop empties, upsert. -/
def processJsonlLine (jsonParse : List Char → Option JVal) (hash : List Char → String)
    (source_name : String) (src : SourceCfg) (now : ℚ) (st : TrackerState)
    (rawLine : List Char) : TrackerState :=
  let line := pyStrip rawLine
  if line.isEmpty then st
  else
    match jsonParse line with
    | none => st
    | some data =>
      let sid := _extract_sid data src.sid_keys source_name
      let text := _sanitize_text (_extract_text data src.text_keys)
      if text.isEmpty then st
      else _upsert_session hash st sid source_name text now

/-- `_poll_jsonl_file` (lines 255-291): getsize failure returns untouched;
an absent cursor defaults to the current size; a shrunken file resets the
read offset to 0; when nothing new is readable the cursor is stored and the
pass ends; otherwise the new lines are processed and the cursor advances to
the current size only if the read completed, while a raise increments the
error counter and logs. -/
def _poll_jsonl_file (jsonParse : List Char → Option JVal) (hash : List Char → String)
    (st : TrackerState) (source_name : String) (src : SourceCfg) (cursor_key : String)
    (now : ℚ) (fs : FileOutcome) : TrackerState :=
  match fs with
  | .sizeErr => st
  | .content bytes rf =>
    let cur_size := bytes.length
    let last0 := (lookupA st.file_cursors cursor_key).getD cur_size
    let last := if cur_size < last0 then 0 else last0
    if cur_size ≤ last then
      { st with file_cursors := setA st.file_cursors cursor_key cur_size }
    else
      let lines := splitLines (bytes.drop last)
      match rf with
      | none =>
        let st2 := lines.foldl (processJsonlLine jsonParse hash source_name src now) st
        { st2 with file_cursors := setA st2.file_cursors cursor_key cur_size }
      | some k =>
        let st2 := (lines.take k).foldl (processJsonlLine jsonParse hash source_name src now) st
        { st2 with error_count := st2.error_count + 1, error_logs := st2.error_logs + 1 }

/-- IGNORE_SHELL_CMD_PREFIXES (lines 120-123). -/
def IGNORE_SHELL_CMDS : List String := ["history", "fc "]

/-- SHELL_LINE_RE, `^:\s*(\d+):\d+;(.*)$`, matched at the start of the line:
colon, greedy whitespace, a digit run, colon, a digit run, semicolon, and
the rest of the line as the command. -/
def parseShellRe (l : List Char) : Option (Int × List Char) :=
  match l with
  | ':' :: r1 =>
    let s1 := (r1.span isPySpace).2
    let d1 := s1.span Char.isDigit
    if d1.1.isEmpty then none
    else
      match d1.2 with
      | ':' :: r2 =>
        let d2 := r2.span Char.isDigit
        if d2.1.isEmpty then none
        else
          match d2.2 with
          | ';' :: rest => some ((Nat.ofDigits 10 ((d1.1.map (fun c => c.toNat - 48)).reverse) : Int), rest)
          | _ => none
      | _ => none
  | _ => none

/-- `_parse_shell_line` (lines 472-498).  `nowTs` stands for
`int(time.time())` and `dayOf` for the local-timezone
`datetime.fromtimestamp(ts).strftime("%Y%m%d")`. -/
def _parse_shell_line (dayOf : Int → String) (nowTs : Int) (source_name : String)
    (raw_line : List Char) : Option (String × List Char) :=
  let line := pyStrip raw_line
  if line.isEmpty then none
  else
    let parsed := parseShellRe line
    let ts := match parsed with | some p => p.1 | none => nowTs
    let cmd := match parsed with | some p => pyStrip p.2 | none => line
    if cmd.isEmpty then none
    else
      let low := String.mk (cmd.map Char.toLower)
      if IGNORE_SHELL_CMDS.any (fun p => low.startsWith p) then none
      else
        let cmd2 := _sanitize_text cmd
        if cmd2.isEmpty then none
        else some (source_name ++ "_" ++ dayOf ts, cmd2)

/-- The loop body of `poll_shell_sources` (lines 315-320): parse, then
upsert under the day-keyed shell session id. -/
def processShellLine (dayOf : Int → String) (nowTs : Int) (hash : List Char → String)
    (source_name : String) (now : ℚ) (st : TrackerState) (line : List Char) : TrackerState :=
  match _parse_shell_line dayOf nowTs source_name line with
  | none => st
  | some sc => _upsert_session hash st sc.1 source_name sc.2 now

/-- The body of the per-source loop of `poll_shell_sources` (lines 298-324):
the same cursor protocol as the JSONL tailer with `_parse_shell_line` as the
line consumer; a getsize OSError is a bare `continue`. -/
def pollShellFile (dayOf : Int → String) (nowTs : Int) (hash : List Char → String)
    (st : TrackerState) (source_name : String) (cursor_key : String)
    (now : ℚ) (fs : FileOutcome) : TrackerState :=
  match fs with
  | .sizeErr => st
  | .content bytes rf =>
    let cur_size := bytes.length
    let last0 := (lookupA st.file_cursors cursor_key).getD cur_size
    let last := if cur_size < last0 then 0 else last0
    if cur_size ≤ last then
      { st with file_cursors := setA st.file_cursors cursor_key cur_size }
    else
      let lines := splitLines (bytes.drop last)
      match rf with
      | none =>
        let st2 := lines.foldl (processShellLine dayOf nowTs hash source_name now) st
        { st2 with file_cursors := setA st2.file_cursors cursor_key cur_size }
      | some k =>
        let st2 := (lines.take k).foldl (processShellLine dayOf nowTs hash source_name now) st
        { st2 with error_count := st2.error_count + 1, error_logs := st2.error_logs + 1 }

/-- The line consumer of `poll_codex_sessions` (lines 361-388) for
well-formed records: only `type == "response_item"` records contribute;
payload type `message` joins the text of `output_text` content items,
payload type `reasoning` takes `payload.text`. -/
def processCodexLine (jsonParse : List Char → Option JVal) (hash : List Char → String)
    (sid : String) (now : ℚ) (st : TrackerState) (rawLine : List Char) : TrackerState :=
  let line := pyStrip rawLine
  if line.isEmpty then st
  else
    match jsonParse line with
    | none => st
    | some data =>
      match data.get "type" with
      | some (.jstr t) =>
        if t = "response_item" then
          let payload := (data.get "payload").getD (.jobj [])
          let ptype := payload.get "type"
          let text : List Char :=
            match ptype with
            | some (.jstr pt) =>
              if pt = "message" then
                let content :=
                  match payload.get "content" with
                  | some (.jarr items) => items
                  | _ => []
                let texts := content.filterMap (fun c =>
                  match c.get "type" with
                  | some (.jstr ct) =>
                    if ct = "output_text" then
                      match c.get "text" with
                      | some (.jstr s) => some s.toList
                      | _ => some []
                    else none
                  | _ => none)
                joinNL (texts.filter (fun t => !t.isEmpty))
              else if pt = "reasoning" then
                match payload.get "text" with
                | some (.jstr s) => s.toList
                | _ => []
              else []
            | _ => []
          let text2 := _sanitize_text text
          if text2.isEmpty then st
          else _upsert_session hash st sid "codex_session" text2 now
        else st
      | _ => st

/-- The per-file body of `poll_codex_sessions` (lines 345-393) for a file
that passed the one-hour mtime gate; `sid` is the basename of the path. -/
def pollCodexFile (jsonParse : List Char → Option JVal) (hash : List Char → String)
    (st : TrackerState) (sid : String) (cursor_key : String)
    (now : ℚ) (fs : FileOutcome) : TrackerState :=
  match fs with
  | .sizeErr => st
  | .content bytes rf =>
    let cur_size := bytes.length
    let last0 := (lookupA st.file_cursors cursor_key).getD cur_size
    let last := if cur_size < last0 then 0 else last0
    if cur_size ≤ last then
      { st with file_cursors := setA st.file_cursors cursor_key cur_size }
    else
      let lines := splitLines (bytes.drop last)
      match rf with
      | none =>
        let st2 := lines.foldl (processCodexLine jsonParse hash sid now) st
        { st2 with file_cursors := setA st2.file_cursors cursor_key cur_size }
      | some k =>
        let st2 := (lines.take k).foldl (processCodexLine jsonParse hash sid now) st
        { st2 with error_count := st2.error_count + 1, error_logs := st2.error_logs + 1 }

/-! ### Outbox retry -/

structure PendingFile where
  name : String
  mtime : ℚ
deriving DecidableEq

/-- Outcome of one `POST` in `_retry_pending`: an HTTP status, or a raised
exception (connection error, timeout). -/
inductive PostResult where
  | status (code : Nat)
  | exc
deriving DecidableEq

def mtimeLe (a b : PendingFile) : Bool := decide (a.mtime ≤ b.mtime)

/-- The batch of `_retry_pending` (line 641 and the slice at line 646):
outbox files sorted by mtime ascending, first eight. -/
def retryBatch (files : List PendingFile) : List PendingFile :=
  (insertionSort mtimeLe files).take 8

/-- The retry loop (lines 646-663): returns (files POSTed, files deleted).
A status below 300 unlinks the file; a status of 300 or more leaves the file
and continues; an exception ends the batch. -/
def retryGo (post : PendingFile → PostResult) : List PendingFile → List PendingFile × List PendingFile
  | [] => ([], [])
  | pf :: rest =>
    match post pf with
    | .exc => ([pf], [])
    | .status n =>
      let r := retryGo post rest
      (pf :: r.1, if n < 300 then pf :: r.2 else r.2)

/-- `_retry_pending` over a modelled outbox directory listing. -/
def _retry_pending (post : PendingFile → PostResult) (files : List PendingFile) :
    List PendingFile × List PendingFile :=
  retryGo post (retryBatch files)

/-! ### Startup (claim C1) -/

inductive StartupOutcome where
  | entersMainLoop
  | configErrorExit
deriving DecidableEq

/-- Startup control flow of `main` (lines 741-781) together with the module
initialization (lines 29-170): the URL is read from the environment (line
29) and echoed into a log line (line 744), the umask is set, the tracker is
constructed, and the polling loop is entered.  No branch of the daemon
inspects the scheme or the host of the URL, so startup reaches the main
loop for every value of OPENVIKING_URL. -/
def daemon_startup (url : String) : StartupOutcome :=
  let _logged := url
  StartupOutcome.entersMainLoop

/-- The text after the first `://`, none when the separator is absent
(Python `url.split("://", 1)[-1]`). -/
def afterSchemeSep : List Char → Option (List Char)
  | [] => none
  | ':' :: '/' :: '/' :: rest => some rest
  | _ :: cs => afterSchemeSep cs

/-- Host extraction `url.split("://", 1)[-1].split("/", 1)[0].split(":")[0]`. -/
def urlHost (url : String) : String :=
  let t := match afterSchemeSep url.toList with
    | some r => r
    | none => url.toList
  String.mk ((t.takeWhile (fun c => c ≠ '/')).takeWhile (fun c => c ≠ ':'))

/-- Modelled from the spec: the startup contract `for remote URLs whose host
is not a loopback literal, the scheme must be https — on startup mismatch
the process exits with a configuration error`.  The host extraction and the
loopback list follow the only implementation of this check in the
repository, which lives in the out-of-scope facade
src/scripts/openviking_mcp.py (lines 20-22), not in the daemon. -/
def spec_startup (url : String) : StartupOutcome :=
  if urlHost url ∉ (["127.0.0.1", "localhost", "::1"] : List String)
      ∧ ¬ ("https://".toList.isPrefixOf url.toList) then
    StartupOutcome.configErrorExit
  else StartupOutcome.entersMainLoop

/-! ### Operation traces (claim C3) -/

inductive TrackerOp where
  | upsertOp (sid source : String) (text : List Char) (now : ℚ)
  | sweepOp (now : ℚ)

def applyOp (hash : List Char → String) (st : TrackerState) :
    TrackerOp → TrackerState × List String
  | .upsertOp sid source text now => (_upsert_session hash st sid source text now, [])
  | .sweepOp now => check_and_export_idle st now

/-- Run a sequence of tracker operations, accumulating the sids exported by
the idle sweeps in order. -/
def runTrace (hash : List Char → String) (st : TrackerState) :
    List TrackerOp → TrackerState × List String
  | [] => (st, [])
  | op :: ops =>
    let r1 := applyOp hash st op
    let r2 := runTrace hash r1.1 ops
    (r2.1, r1.2 ++ r2.2)

/-- The session of `sid` is tracked in the initial state and after every
operation of the trace (its lifecycle spans the trace: it is neither evicted
by `_evict_oldest` nor removed by the TTL sweep). -/
def presentAlong (hash : List Char → String) (sid : String) :
    TrackerState → List TrackerOp → Bool
  | st, [] => (lookupA st.sessions sid).isSome
  | st, op :: ops =>
    (lookupA st.sessions sid).isSome && presentAlong hash sid (applyOp hash st op).1 ops

/-- Number of idle-sweep exports of `sid` in an event list. -/
def countSid (evs : List String) (sid : String) : Nat :=
  (evs.filter (fun e => e == sid)).length

/-! ### Concrete instances for the counterexamples and witnesses -/

/-- A stand-in digest function (the theorems hold for every digest). -/
def hash0 : List Char → String := fun _ => ""

/-- A json.loads stand-in on which every line is malformed. -/
def jpNone : List Char → Option JVal := fun _ => none

def st0 : TrackerState :=
  { sessions := [], file_cursors := [], error_count := 0, error_logs := 0, last_activity_ts := 0 }

/-- A tracker holding a cursor of 5 for key "k": a pass over a 1-byte file
is then a truncation pass. -/
def stC2 : TrackerState := { st0 with file_cursors := [("k", 5)] }

/-- The schema-variance record of the spec: `id` "x", a `parts` array with
two `text`-typed elements and one other, and a top-level `input` "pre". -/
def c4rec : JVal :=
  .jobj [("id", .jstr "x"),
         ("parts", .jarr [
           .jobj [("type", .jstr "text"), ("text", .jstr "a")],
           .jobj [("type", .jstr "other"), ("text", .jstr "z")],
           .jobj [("type", .jstr "text"), ("text", .jstr "b")]]),
         ("input", .jstr "pre")]

/-- A json.loads stand-in on which every line decodes to the C4 record. -/
def jpC4 : List Char → Option JVal := fun _ => some c4rec

/-- Character set of the C5 counterexample input; none of the redaction
patterns can begin inside a string over this set. -/
def benign (c : Char) : Bool := c = 'a' || c = ' ' || c = 'b'

/-- 3999 letters, a space, a letter: stripping and redaction leave it
unchanged, truncation cuts it to 4000 characters ending in the space. -/
def c5x : List Char := List.replicate 3999 'a' ++ [' ', 'b']

def pfA : PendingFile := { name := "a.md", mtime := 1 }

def pfB : PendingFile := { name := "b.md", mtime := 2 }

/-- POSTs for the C6 counterexample: the older file gets an HTTP 500, the
newer file an HTTP 200. -/
def postC6 : PendingFile → PostResult :=
  fun pf => if pf.name = "a.md" then .status 500 else .status 200

/-- POSTs for the C6 witness: the older file raises. -/
def postExcA : PendingFile → PostResult :=
  fun pf => if pf.name = "a.md" then .exc else .status 200

/-- A cursor table of 1201 distinct keys (distinct by length). -/
def bigCursors : List (String × Nat) :=
  (List.range 1201).map (fun n => (String.mk (List.replicate n 'a'), 0))

def sessW : Session :=
  { last_seen := 0, messages := [['m'], ['n']], exported := false, source := "claude_code",
    created := 0, last_hash := "h" }

def stC3 : TrackerState := { st0 with sessions := [("s", sessW)] }

def opsC3 : List TrackerOp := [TrackerOp.sweepOp 1000]

def sessC9 : Session :=
  { last_seen := 0, messages := [], exported := false, source := "claude_code",
    created := 0, last_hash := "" }

def stC9 : TrackerState := { st0 with sessions := [("s", sessC9)] }

/-! ## Helper lemmas: tailer passes leave counters and cursors alone -/

theorem upsert_file_cursors (hash : List Char → String) (st : TrackerState)
    (sid source : String) (text : List Char) (now : ℚ) :
    (_upsert_session hash st sid source text now).file_cursors = st.file_cursors
    ∧ (_upsert_session hash st sid source text now).error_count = st.error_count
    ∧ (_upsert_session hash st sid source text now).error_logs = st.error_logs := by
  refine ⟨?_, ?_, ?_⟩ <;>
    (dsimp only [_upsert_session]; repeat' split) <;> rfl

theorem processJsonlLine_preserves (jp : List Char → Option JVal) (hash : List Char → String)
    (sn : String) (src : SourceCfg) (now : ℚ) (st : TrackerState) (line : List Char) :
    (processJsonlLine jp hash sn src now st line).file_cursors = st.file_cursors
    ∧ (processJsonlLine jp hash sn src now st line).error_count = st.error_count
    ∧ (processJsonlLine jp hash sn src now st line).error_logs = st.error_logs := by
  dsimp only [processJsonlLine]
  split
  · exact ⟨rfl, rfl, rfl⟩
  · split
    · exact ⟨rfl, rfl, rfl⟩
    · split
      · exact ⟨rfl, rfl, rfl⟩
      · exact upsert_file_cursors ..

theorem processShellLine_preserves (dayOf : Int → String) (nowTs : Int)
    (hash : List Char → String) (sn : String) (now : ℚ) (st : TrackerState) (line : List Char) :
    (processShellLine dayOf nowTs hash sn now st line).file_cursors = st.file_cursors
    ∧ (processShellLine dayOf nowTs hash sn now st line).error_count = st.error_count
    ∧ (processShellLine dayOf nowTs hash sn now st line).error_logs = st.error_logs := by
  unfold processShellLine
  split
  · exact ⟨rfl, rfl, rfl⟩
  · exact upsert_file_cursors ..

theorem foldl_jsonl_preserves (jp : List Char → Option JVal) (hash : List Char → String)
    (sn : String) (src : SourceCfg) (now : ℚ) (lines : List (List Char)) (st : TrackerState) :
    ((lines.foldl (processJsonlLine jp hash sn src now) st).file_cursors = st.file_cursors)
    ∧ ((lines.foldl (processJsonlLine jp hash sn src now) st).error_count = st.error_count)
    ∧ ((lines.foldl (processJsonlLine jp hash sn src now) st).error_logs = st.error_logs) := by
  induction lines generalizing st with
  | nil => exact ⟨rfl, rfl, rfl⟩
  | cons l rest ih =>
    simp only [List.foldl_cons]
    have h1 := processJsonlLine_preserves jp hash sn src now st l
    have h2 := ih (processJsonlLine jp hash sn src now st l)
    exact ⟨h2.1.trans h1.1, h2.2.1.trans h1.2.1, h2.2.2.trans h1.2.2⟩

theorem foldl_shell_preserves (dayOf : Int → String) (nowTs : Int) (hash : List Char → String)
    (sn : String) (now : ℚ) (lines : List (List Char)) (st : TrackerState) :
    ((lines.foldl (processShellLine dayOf nowTs hash sn now) st).file_cursors = st.file_cursors)
    ∧ ((lines.foldl (processShellLine dayOf nowTs hash sn now) st).error_count = st.error_count)
    ∧ ((lines.foldl (processShellLine dayOf nowTs hash sn now) st).error_logs = st.error_logs) := by
  induction lines generalizing st with
  | nil => exact ⟨rfl, rfl, rfl⟩
  | cons l rest ih =>
    simp only [List.foldl_cons]
    have h1 := processShellLine_preserves dayOf nowTs hash sn now st l
    have h2 := ih (processShellLine dayOf nowTs hash sn now st l)
    exact ⟨h2.1.trans h1.1, h2.2.1.trans h1.2.1, h2.2.2.trans h1.2.2⟩

/-! ## C1: startup and the URL scheme -/

/-- C1 (amended): the daemon performs no validation of OPENVIKING_URL at
startup; it enters the main loop for every URL, loopback or remote, http or
https.  The https-for-non-loopback startup check the spec describes exists
only in the out-of-scope facade script openviking_mcp.py. -/
theorem C1_no_startup_url_check :
    ∀ url : String, daemon_startup url = StartupOutcome.entersMainLoop :=
  fun _ => rfl

/-- C1 counterexample: for a remote plain-http URL the claim requires a
configuration-error exit before the main loop, but the daemon enters the
main loop. -/
theorem C1_cex :
    daemon_startup "http://remote.example.com/api/v1" = StartupOutcome.entersMainLoop
    ∧ spec_startup "http://remote.example.com/api/v1" = StartupOutcome.configErrorExit := by
  exact ⟨rfl, by decide⟩

/-! ## C10: first poll of a file with no cursor -/

/-- C10: when the cursor key is absent from the cursor table, every tailer
pass seeds the cursor with the current file size and emits nothing: the
whole state is unchanged except for the new cursor entry, for any content
and any read outcome. -/
theorem C10_absent_cursor_skips (jp : List Char → Option JVal) (hash : List Char → String)
    (dayOf : Int → String) (nowTs : Int) (st : TrackerState) (sn sid ck : String)
    (src : SourceCfg) (now : ℚ) (bytes : List Char) (rf : Option Nat)
    (hnone : lookupA st.file_cursors ck = none) :
    _poll_jsonl_file jp hash st sn src ck now (.content bytes rf)
      = { st with file_cursors := setA st.file_cursors ck bytes.length }
    ∧ pollShellFile dayOf nowTs hash st sn ck now (.content bytes rf)
      = { st with file_cursors := setA st.file_cursors ck bytes.length }
    ∧ pollCodexFile jp hash st sid ck now (.content bytes rf)
      = { st with file_cursors := setA st.file_cursors ck bytes.length } := by
  refine ⟨?_, ?_, ?_⟩ <;>
    simp [_poll_jsonl_file, pollShellFile, pollCodexFile, hnone]

/-- C10 witness: a first poll of a 1-byte codex-style file seeds the cursor
to 1 and leaves sessions, counters, and activity untouched. -/
theorem C10_witness :
    _poll_jsonl_file jpNone hash0 st0 "claude_code" claudeCodeCfg "k" 0
        (.content ['x'] none)
      = { st0 with file_cursors := setA st0.file_cursors "k" 1 } :=
  (C10_absent_cursor_skips jpNone hash0 (fun _ => "") 0 st0 "claude_code" "s" "k"
    claudeCodeCfg 0 ['x'] none rfl).1

/-! ## C7: transient I/O during a tailer pass -/

/-- C7 (amended): an open or read failure during a tailer pass increments
the error counter, emits one error log line, and leaves the cursor table
unchanged, and the pass returns normally; a getsize failure, however,
returns with the whole state untouched — it neither increments the counter
nor logs.  (Hypotheses of the read-failure conjuncts place the pass in the
branch that actually opens the file.) -/
theorem C7_io_failures (jp : List Char → Option JVal) (hash : List Char → String)
    (dayOf : Int → String) (nowTs : Int) (st : TrackerState) (sn ck : String)
    (src : SourceCfg) (now : ℚ) :
    (_poll_jsonl_file jp hash st sn src ck now .sizeErr = st)
    ∧ (pollShellFile dayOf nowTs hash st sn ck now .sizeErr = st)
    ∧ (∀ bytes k n, lookupA st.file_cursors ck = some n → 0 < bytes.length →
        n ≠ bytes.length →
        (_poll_jsonl_file jp hash st sn src ck now (.content bytes (some k))).error_count
            = st.error_count + 1
        ∧ (_poll_jsonl_file jp hash st sn src ck now (.content bytes (some k))).error_logs
            = st.error_logs + 1
        ∧ (_poll_jsonl_file jp hash st sn src ck now (.content bytes (some k))).file_cursors
            = st.file_cursors)
    ∧ (∀ bytes k n, lookupA st.file_cursors ck = some n → 0 < bytes.length →
        n ≠ bytes.length →
        (pollShellFile dayOf nowTs hash st sn ck now (.content bytes (some k))).error_count
            = st.error_count + 1
        ∧ (pollShellFile dayOf nowTs hash st sn ck now (.content bytes (some k))).error_logs
            = st.error_logs + 1
        ∧ (pollShellFile dayOf nowTs hash st sn ck now (.content bytes (some k))).file_cursors
            = st.file_cursors) := by
  refine ⟨rfl, rfl, ?_, ?_⟩
  · intro bytes k n hcur hpos hne
    have hread : ¬ (bytes.length ≤ if bytes.length < n then 0 else n) := by
      split <;> omega
    simp only [_poll_jsonl_file, hcur, Option.getD_some, if_neg hread]
    have hf := foldl_jsonl_preserves jp hash sn src now
      ((splitLines (bytes.drop (if bytes.length < n then 0 else n))).take k) st
    exact ⟨by simp [hf.2.1], by simp [hf.2.2], by simp [hf.1]⟩
  · intro bytes k n hcur hpos hne
    have hread : ¬ (bytes.length ≤ if bytes.length < n then 0 else n) := by
      split <;> omega
    simp only [pollShellFile, hcur, Option.getD_some, if_neg hread]
    have hf := foldl_shell_preserves dayOf nowTs hash sn now
      ((splitLines (bytes.drop (if bytes.length < n then 0 else n))).take k) st
    exact ⟨by simp [hf.2.1], by simp [hf.2.2], by simp [hf.1]⟩

/-- C7 witness: a failing read on a grown file bumps the error counter and
log count by one and leaves the cursor at its old value. -/
theorem C7_witness :
    (_poll_jsonl_file jpNone hash0 stC2 "claude_code" claudeCodeCfg "k" 0
        (.content ['x', 'y', 'z', 'w', 'v', 'u'] (some 0))).error_count
      = stC2.error_count + 1 :=
  ((C7_io_failures jpNone hash0 (fun _ => "") 0 stC2 "claude_code" "k" claudeCodeCfg 0).2.2.1
    ['x', 'y', 'z', 'w', 'v', 'u'] 0 5 rfl (by decide) (by decide)).1

/-- C7 counterexample: a getsize failure leaves the error counter at 0 and
logs nothing, where the claim requires the counter incremented and the
failure logged. -/
theorem C7_cex :
    _poll_jsonl_file jpNone hash0 stC2 "claude_code" claudeCodeCfg "k" 0 .sizeErr = stC2
    ∧ stC2.error_count = 0 ∧ stC2.error_logs = 0 :=
  ⟨rfl, rfl, rfl⟩

/-! ## C2: truncation pass -/

/-- C2 (amended): when the current size is below the stored cursor the pass
re-reads the whole file from byte offset 0, and on a completed read the
cursor ends the pass at the current size (0 exactly when the file is empty);
and the tracker's dedupe suppresses an upsert whose digest equals the
session's last message hash, so a re-delivered line equal to the last
appended message is not appended again. -/
theorem C2_truncation_pass (jp : List Char → Option JVal) (hash : List Char → String)
    (st : TrackerState) (sn ck : String) (src : SourceCfg) (now : ℚ)
    (bytes : List Char) (n : Nat)
    (hcur : lookupA st.file_cursors ck = some n) (hlt : bytes.length < n) :
    (0 < bytes.length →
      _poll_jsonl_file jp hash st sn src ck now (.content bytes none)
        = (let st2 := (splitLines bytes).foldl (processJsonlLine jp hash sn src now) st
           { st2 with file_cursors := setA st2.file_cursors ck bytes.length }))
    ∧ (bytes.length = 0 →
      _poll_jsonl_file jp hash st sn src ck now (.content bytes none)
        = { st with file_cursors := setA st.file_cursors ck bytes.length })
    ∧ (∀ (st2 : TrackerState) (sid source : String) (text : List Char) (now2 : ℚ)
         (sess : Session), lookupA st2.sessions sid = some sess →
        hash text = sess.last_hash →
        _upsert_session hash st2 sid source text now2 = st2) := by
  refine ⟨?_, ?_, ?_⟩
  · intro hpos
    dsimp only [_poll_jsonl_file]
    rw [hcur]
    dsimp only [Option.getD_some]
    rw [if_pos hlt, if_neg (by omega), List.drop_zero]
  · intro h0
    dsimp only [_poll_jsonl_file]
    rw [hcur]
    dsimp only [Option.getD_some]
    rw [if_pos hlt, if_pos (by omega)]
  · intro st2 sid source text now2 sess hlook hh
    dsimp only [_upsert_session]
    rw [hlook]
    simp only [Option.isSome_some, if_true]
    rw [hlook]
    dsimp only
    rw [if_pos hh]

/-- C2 witness: a truncation pass over a one-line non-JSON file ("x" with
stored cursor 5) ends with the cursor at the new size 1, having re-read
from offset 0. -/
theorem C2_witness :
    _poll_jsonl_file jpNone hash0 stC2 "claude_code" claudeCodeCfg "k" 0
        (.content ['x'] none)
      = (let st2 := (splitLines ['x']).foldl
           (processJsonlLine jpNone hash0 "claude_code" claudeCodeCfg 0) stC2
         { st2 with file_cursors := setA st2.file_cursors "k" 1 }) :=
  (C2_truncation_pass jpNone hash0 stC2 "claude_code" "k" claudeCodeCfg 0 ['x'] 5 rfl
    (by decide)).1 (by decide)

/-- C2 counterexample: on that truncation pass the end-of-pass cursor is the
new file size 1, not 0 as the claim requires. -/
theorem C2_cex :
    lookupA (_poll_jsonl_file jpNone hash0 stC2 "claude_code" claudeCodeCfg "k" 0
        (.content ['x'] none)).file_cursors "k" = some 1
    ∧ some (1 : Nat) ≠ some 0 := by
  exact ⟨by decide, by decide⟩

/-! ## C4: opencode schema variance -/

/-- C4 (amended): the spec record yields exactly one extracted message whose
text is "pre" — the top-level `input` field is the first text key probed for
opencode and is non-empty, so the `parts` fallback is never reached — and it
is attributed to session id "x"; processing the decoded line performs
exactly the one upsert of that sanitized text. -/
theorem C4_opencode_schema :
    _extract_text c4rec opencodeCfg.text_keys = "pre".toList
    ∧ _extract_sid c4rec opencodeCfg.sid_keys "opencode" = "x"
    ∧ _sanitize_text ("pre".toList) = "pre".toList
    ∧ (∀ (jp : List Char → Option JVal) (hash : List Char → String) (st : TrackerState)
         (line : List Char) (now : ℚ),
        jp (pyStrip line) = some c4rec → (pyStrip line).isEmpty = false →
        processJsonlLine jp hash "opencode" opencodeCfg now st line
          = _upsert_session hash st "x" "opencode" "pre".toList now) := by
  refine ⟨by decide, by decide, by decide, ?_⟩
  intro jp hash st line now hjp hne
  dsimp only [processJsonlLine]
  rw [hne]
  simp only [Bool.false_eq_true, if_false]
  rw [hjp]
  dsimp only
  have h1 : _extract_text c4rec opencodeCfg.text_keys = "pre".toList := by decide
  have h2 : _extract_sid c4rec opencodeCfg.sid_keys "opencode" = "x" := by decide
  have h3 : _sanitize_text ("pre".toList) = "pre".toList := by decide
  rw [h1, h3, h2]
  rw [if_neg (by decide)]

/-- C4 witness: with a decoder returning the record for a non-blank line,
the processed line equals the single upsert of "pre" under session "x". -/
theorem C4_witness :
    processJsonlLine jpC4 hash0 "opencode" opencodeCfg 0 st0 ['z']
      = _upsert_session hash0 st0 "x" "opencode" "pre".toList 0 :=
  C4_opencode_schema.2.2.2 jpC4 hash0 st0 ['z'] 0 rfl (by decide)

/-- C4 counterexample: the extracted text is not the claimed
"pre\na\nb" — the parts are never concatenated because `input` already
matched. -/
theorem C4_cex :
    ¬ (_extract_text c4rec opencodeCfg.text_keys = ("pre\na\nb").toList) := by
  decide

/-! ## C5: the sanitizer

The helper lemmas show that no redaction pattern can start anywhere in a
string over the characters `a`, space, `b`, so the redaction pass is the
identity on such strings; the counterexample then only needs the strip and
truncate behavior. -/

theorem benign_cases (c : Char) (h : benign c = true) : c = 'a' ∨ c = ' ' ∨ c = 'b' := by
  simp only [benign, Bool.or_eq_true, decide_eq_true_eq] at h
  tauto

theorem matchLitCI_cons (p : Char) (ps : List Char) (c : Char) (cs : List Char) :
    matchLitCI (p :: ps) (c :: cs)
      = if c.toLower = p then (matchLitCI ps cs).map (fun g => (c :: g.1, g.2)) else none := rfl

theorem matchLit_cons (p : Char) (ps : List Char) (c : Char) (cs : List Char) :
    matchLit (p :: ps) (c :: cs)
      = if c = p then (matchLit ps cs).map (fun g => (c :: g.1, g.2)) else none := rfl

theorem litApi_eq : litApi = ['a', 'p', 'i'] := rfl

/-- A case-insensitive literal whose first character is not a lowered benign
character never matches a benign string. -/
theorem matchLitCI_head_benign (p : Char) (ps l : List Char)
    (hb : ∀ c ∈ l, benign c = true)
    (ha : ¬ ('a' : Char).toLower = p) (hs : ¬ (' ' : Char).toLower = p)
    (hbb : ¬ ('b' : Char).toLower = p) :
    matchLitCI (p :: ps) l = none := by
  cases l with
  | nil => rfl
  | cons c cs =>
    rw [matchLitCI_cons]
    rcases benign_cases c (hb c (List.mem_cons_self c cs)) with hc | hc | hc <;> subst hc
    · exact if_neg ha
    · exact if_neg hs
    · exact if_neg hbb

theorem matchLitCI_api_benign (l : List Char) (hb : ∀ c ∈ l, benign c = true) :
    matchLitCI litApi l = none := by
  rw [litApi_eq]
  cases l with
  | nil => rfl
  | cons c cs =>
    rcases benign_cases c (hb c (List.mem_cons_self c cs)) with hc | hc | hc <;> subst hc
    · cases cs with
      | nil => rfl
      | cons c2 cs2 =>
        rw [matchLitCI_cons, if_pos (by decide), matchLitCI_cons]
        rcases benign_cases c2 (hb c2 (by simp)) with h2 | h2 | h2 <;> subst h2 <;>
          rw [if_neg (by decide)] <;> rfl
    · rw [matchLitCI_cons, if_neg (by decide)]
    · rw [matchLitCI_cons, if_neg (by decide)]

theorem tryApiKey_benign (l : List Char) (hb : ∀ c ∈ l, benign c = true) :
    tryApiKey l = none := by
  simp only [tryApiKey, matchLitCI_api_benign l hb]

theorem tryKeyColon_token_benign (l : List Char) (hb : ∀ c ∈ l, benign c = true) :
    tryKeyColon litToken l = none := by
  have hm : matchLitCI litToken l = none := by
    rw [show litToken = 't' :: "oken".toList from rfl]
    exact matchLitCI_head_benign 't' _ l hb (by decide) (by decide) (by decide)
  unfold tryKeyColon
  rw [hm]

theorem tryKeyColon_password_benign (l : List Char) (hb : ∀ c ∈ l, benign c = true) :
    tryKeyColon litPassword l = none := by
  have hm : matchLitCI litPassword l = none := by
    rw [show litPassword = 'p' :: "assword".toList from rfl]
    exact matchLitCI_head_benign 'p' _ l hb (by decide) (by decide) (by decide)
  unfold tryKeyColon
  rw [hm]

theorem tryFlag_apikey_benign (l : List Char) (hb : ∀ c ∈ l, benign c = true) :
    tryFlag litApiKeyFlag l = none := by
  have hm : matchLitCI litApiKeyFlag l = none := by
    rw [show litApiKeyFlag = '-' :: "-api-key".toList from rfl]
    exact matchLitCI_head_benign '-' _ l hb (by decide) (by decide) (by decide)
  unfold tryFlag
  rw [hm]

theorem tryFlag_token_benign (l : List Char) (hb : ∀ c ∈ l, benign c = true) :
    tryFlag litTokenFlag l = none := by
  have hm : matchLitCI litTokenFlag l = none := by
    rw [show litTokenFlag = '-' :: "-token".toList from rfl]
    exact matchLitCI_head_benign '-' _ l hb (by decide) (by decide) (by decide)
  unfold tryFlag
  rw [hm]

theorem matchLit_sk_benign (l : List Char) (hb : ∀ c ∈ l, benign c = true) :
    matchLit litSk l = none := by
  show matchLit ('s' :: ['k', '-']) l = none
  cases l with
  | nil => rfl
  | cons c cs =>
    rw [matchLit_cons]
    rcases benign_cases c (hb c (List.mem_cons_self c cs)) with hc | hc | hc <;> subst hc <;>
      exact if_neg (by decide)

theorem trySk_benign (prev : Option Char) (l : List Char) (hb : ∀ c ∈ l, benign c = true) :
    trySk prev l = none := by
  dsimp only [trySk]
  split
  · rw [matchLit_sk_benign l hb]
  · rfl

theorem scanStarSub_benign (tm : List Char → Option (List Char × List Char))
    (htm : ∀ l, (∀ c ∈ l, benign c = true) → tm l = none) :
    ∀ (fuel : Nat) (l : List Char), (∀ c ∈ l, benign c = true) →
      scanStarSub tm fuel l = l := by
  intro fuel
  induction fuel with
  | zero => intro l _; rfl
  | succ n ih =>
    intro l hb
    cases l with
    | nil => rfl
    | cons c cs =>
      simp only [scanStarSub, htm _ hb]
      exact congrArg (c :: ·) (ih cs (fun x hx => hb x (List.mem_cons_of_mem c hx)))

theorem scanSkSub_benign :
    ∀ (fuel : Nat) (prev : Option Char) (l : List Char), (∀ c ∈ l, benign c = true) →
      scanSkSub fuel prev l = l := by
  intro fuel
  induction fuel with
  | zero => intro prev l _; rfl
  | succ n ih =>
    intro prev l hb
    cases l with
    | nil => rfl
    | cons c cs =>
      simp only [scanSkSub, trySk_benign _ _ hb]
      exact congrArg (c :: ·) (ih (some c) cs (fun x hx => hb x (List.mem_cons_of_mem c hx)))

theorem applyRedactions_benign (l : List Char) (hb : ∀ c ∈ l, benign c = true) :
    applyRedactions l = l := by
  have h1 : applySub tryApiKey l = l := scanStarSub_benign _ tryApiKey_benign l.length l hb
  have h2 : applySub (tryKeyColon litToken) l = l :=
    scanStarSub_benign _ tryKeyColon_token_benign l.length l hb
  have h3 : applySub (tryKeyColon litPassword) l = l :=
    scanStarSub_benign _ tryKeyColon_password_benign l.length l hb
  have h4 : applySub (tryFlag litApiKeyFlag) l = l :=
    scanStarSub_benign _ tryFlag_apikey_benign l.length l hb
  have h5 : applySub (tryFlag litTokenFlag) l = l :=
    scanStarSub_benign _ tryFlag_token_benign l.length l hb
  have h6 : scanSkSub l.length none l = l := scanSkSub_benign l.length none l hb
  simp only [applyRedactions, h1, h2, h3, h4, h5, h6]

theorem benign_c5x : ∀ c ∈ c5x, benign c = true := by
  intro c hc
  rcases List.mem_append.1 hc with h | h
  · rw [List.eq_of_mem_replicate h]; decide
  · simp only [List.mem_cons, List.not_mem_nil, or_false] at h
    rcases h with h | h <;> subst h <;> decide

theorem benign_repl : ∀ c ∈ List.replicate 3999 'a', benign c = true := by
  intro c hc
  rw [List.eq_of_mem_replicate hc]; decide

theorem replicate_a_3999 : List.replicate 3999 'a' = 'a' :: List.replicate 3998 'a' := by
  rw [show (3999 : Nat) = 3998 + 1 by norm_num, List.replicate_succ]

theorem dropWhile_repl_front (t : List Char) :
    (List.replicate 3999 'a' ++ t).dropWhile isPySpace = List.replicate 3999 'a' ++ t := by
  rw [replicate_a_3999, List.cons_append, List.dropWhile_cons, if_neg (by decide)]

theorem pyStripEnd_snoc (l : List Char) (c : Char) (hc : isPySpace c = false) :
    pyStripEnd (l ++ [c]) = l ++ [c] := by
  unfold pyStripEnd
  rw [List.reverse_append, List.reverse_singleton, List.singleton_append,
    List.dropWhile_cons, if_neg (by simp [hc]), List.reverse_cons, List.reverse_reverse]

theorem pyStripEnd_repl_space :
    pyStripEnd (List.replicate 3999 'a' ++ [' ']) = List.replicate 3999 'a' := by
  unfold pyStripEnd
  rw [List.reverse_append, List.reverse_singleton, List.singleton_append,
    List.dropWhile_cons, if_pos (by decide), List.reverse_replicate, replicate_a_3999,
    List.dropWhile_cons, if_neg (by decide), ← replicate_a_3999, List.reverse_replicate]

theorem pyStrip_c5x : pyStrip c5x = c5x := by
  unfold pyStrip
  rw [c5x, dropWhile_repl_front,
    show List.replicate 3999 'a' ++ [' ', 'b']
        = (List.replicate 3999 'a' ++ [' ']) ++ ['b'] by
        rw [List.append_assoc, List.singleton_append],
    pyStripEnd_snoc _ _ (by decide), List.append_assoc]

theorem pyStrip_trunc :
    pyStrip (List.replicate 3999 'a' ++ [' ']) = List.replicate 3999 'a' := by
  unfold pyStrip
  rw [dropWhile_repl_front, pyStripEnd_repl_space]

theorem sanitize_c5x : _sanitize_text c5x = List.replicate 3999 'a' ++ [' '] := by
  have hne : c5x.isEmpty = false := by
    rw [c5x, replicate_a_3999]; rfl
  have hlen : c5x.length = 4001 := by
    rw [c5x, List.length_append, List.length_replicate]
    norm_num
  dsimp only [_sanitize_text]
  rw [hne]
  simp only [Bool.false_eq_true, if_false]
  rw [pyStrip_c5x, applyRedactions_benign c5x benign_c5x]
  rw [if_pos (by rw [hlen]; norm_num)]
  rw [c5x, List.take_append_eq_append_take,
    List.take_of_length_le (by rw [List.length_replicate]; norm_num),
    List.length_replicate, show (4000 - 3999 : Nat) = 1 by norm_num]
  exact congrArg (List.replicate 3999 'a' ++ ·) rfl

theorem sanitize_trunc_c5x :
    _sanitize_text (List.replicate 3999 'a' ++ [' ']) = List.replicate 3999 'a' := by
  have hne : (List.replicate 3999 'a' ++ [' ']).isEmpty = false := by
    rw [replicate_a_3999]; rfl
  dsimp only [_sanitize_text]
  rw [hne]
  simp only [Bool.false_eq_true, if_false]
  rw [pyStrip_trunc, applyRedactions_benign _ benign_repl]
  rw [if_neg (by rw [List.length_replicate]; norm_num)]

/-- C5 (amended): the sanitizer strips, applies the fixed ordered redaction
list, and truncates, in that order, and its output never exceeds 4000
characters; but it is not idempotent in general — truncation can leave
trailing whitespace that a second application strips away. -/
theorem C5_sanitize_bounded : ∀ text : List Char, (_sanitize_text text).length ≤ 4000 := by
  intro text
  dsimp only [_sanitize_text]
  split
  · simp
  · split
    · next h => rw [List.length_take]; exact min_le_left _ _
    · next h => omega

/-- C5 counterexample: for 3999 letters, a space, and a letter, the first
sanitize truncates to 4000 characters ending in the space, and the second
strips that space: sanitize(sanitize(x)) has 3999 characters while
sanitize(x) has 4000, refuting idempotence. -/
theorem C5_cex : _sanitize_text (_sanitize_text c5x) ≠ _sanitize_text c5x := by
  rw [sanitize_c5x, sanitize_trunc_c5x]
  intro h
  have hl := congrArg List.length h
  rw [List.length_append, List.length_replicate,
    show ([' '] : List Char).length = 1 from rfl] at hl
  omega

/-! ## C6: outbox retry batch -/

theorem insertLe_perm {α : Type} (le : α → α → Bool) (a : α) (l : List α) :
    List.Perm (insertLe le a l) (a :: l) := by
  induction l with
  | nil => exact List.Perm.refl _
  | cons b bs ih =>
    dsimp only [insertLe]
    split
    · exact List.Perm.refl _
    · exact (ih.cons b).trans (List.Perm.swap a b bs)

theorem insertionSort_perm {α : Type} (le : α → α → Bool) (l : List α) :
    List.Perm (insertionSort le l) l := by
  induction l with
  | nil => exact List.Perm.refl _
  | cons a as ih => exact (insertLe_perm le a _).trans (ih.cons a)

theorem insertLe_pairwise {α : Type} (le : α → α → Bool)
    (htot : ∀ a b : α, le a b = true ∨ le b a = true)
    (htrans : ∀ a b c : α, le a b = true → le b c = true → le a c = true)
    (a : α) (l : List α) (hl : l.Pairwise (fun x y => le x y = true)) :
    (insertLe le a l).Pairwise (fun x y => le x y = true) := by
  induction l with
  | nil => simp [insertLe]
  | cons b bs ih =>
    rcases List.pairwise_cons.1 hl with ⟨hb, hbs⟩
    dsimp only [insertLe]
    split
    · next hab =>
      refine List.pairwise_cons.2 ⟨?_, hl⟩
      intro y hy
      rcases List.mem_cons.1 hy with rfl | hy
      · exact hab
      · exact htrans a b y hab (hb y hy)
    · next hab =>
      have hba : le b a = true := by
        rcases htot a b with h | h
        · exact absurd h hab
        · exact h
      refine List.pairwise_cons.2 ⟨?_, ih hbs⟩
      intro y hy
      have hy2 := (insertLe_perm le a bs).mem_iff.1 hy
      rcases List.mem_cons.1 hy2 with rfl | hy2
      · exact hba
      · exact hb y hy2

theorem insertionSort_pairwise {α : Type} (le : α → α → Bool)
    (htot : ∀ a b : α, le a b = true ∨ le b a = true)
    (htrans : ∀ a b c : α, le a b = true → le b c = true → le a c = true)
    (l : List α) :
    (insertionSort le l).Pairwise (fun x y => le x y = true) := by
  induction l with
  | nil => exact List.Pairwise.nil
  | cons a as ih => exact insertLe_pairwise le htot htrans a _ ih

/-- The predicate under which a batch file is deleted. -/
def deletePred (post : PendingFile → PostResult) (pf : PendingFile) : Bool :=
  match post pf with
  | .status n => decide (n < 300)
  | .exc => false

theorem retryGo_spec (post : PendingFile → PostResult) (l : List PendingFile) :
    (retryGo post l).1 <+: l
    ∧ (retryGo post l).2 = (retryGo post l).1.filter (deletePred post)
    ∧ (∀ i (h : i < (retryGo post l).1.length),
        post ((retryGo post l).1.get ⟨i, h⟩) = .exc
          → i = (retryGo post l).1.length - 1) := by
  induction l with
  | nil =>
    refine ⟨List.nil_prefix, rfl, ?_⟩
    intro i h
    simp [retryGo] at h
  | cons pf rest ih =>
    dsimp only [retryGo]
    cases hp : post pf with
    | exc =>
      dsimp only
      refine ⟨⟨rest, rfl⟩, by simp [deletePred, hp], ?_⟩
      intro i h hpe
      simp only [List.length_singleton] at h ⊢
      omega
    | status n =>
      dsimp only
      refine ⟨?_, ?_, ?_⟩
      · rcases ih.1 with ⟨t, ht⟩
        exact ⟨t, by rw [List.cons_append, ht]⟩
      · rw [List.filter_cons, ih.2.1]
        by_cases hn : n < 300 <;> simp [deletePred, hp, hn]
      · intro i h hpe
        cases i with
        | zero =>
          rw [show (pf :: (retryGo post rest).1).get ⟨0, h⟩ = pf from rfl, hp] at hpe
          simp at hpe
        | succ j =>
          simp only [List.get_cons_succ] at hpe
          simp only [List.length_cons] at h ⊢
          have hj := ih.2.2 j (by omega) hpe
          omega

/-- C6 (amended): each retry invocation takes the outbox files sorted by
mtime ascending, POSTs at most 8 of them, the POSTed files are a prefix of
that batch, a file is deleted exactly when its POST returned a status below
300, and only the last POSTed file can have raised — a raised POST
(transport error) ends the batch, while an HTTP error status of 300 or more
merely keeps the file and continues with the next one. -/
theorem C6_retry_policy (files : List PendingFile) (post : PendingFile → PostResult) :
    (_retry_pending post files).1.length ≤ 8
    ∧ (_retry_pending post files).1 <+: retryBatch files
    ∧ (_retry_pending post files).2 = (_retry_pending post files).1.filter (deletePred post)
    ∧ (retryBatch files).Pairwise (fun a b => a.mtime ≤ b.mtime)
    ∧ (∀ i (h : i < (_retry_pending post files).1.length),
        post ((_retry_pending post files).1.get ⟨i, h⟩) = .exc
          → i = (_retry_pending post files).1.length - 1) := by
  have hs := retryGo_spec post (retryBatch files)
  dsimp only [_retry_pending]
  refine ⟨?_, hs.1, hs.2.1, ?_, hs.2.2⟩
  · have h1 := hs.1.length_le
    have h2 : (retryBatch files).length ≤ 8 := by
      dsimp only [retryBatch]
      exact List.length_take_le ..
    omega
  · have hsorted := insertionSort_pairwise mtimeLe
      (fun a b => by
        rcases le_total a.mtime b.mtime with h | h
        · exact Or.inl (by simp [mtimeLe, h])
        · exact Or.inr (by simp [mtimeLe, h]))
      (fun a b c hab hbc => by
        simp only [mtimeLe, decide_eq_true_eq] at hab hbc ⊢
        exact le_trans hab hbc)
      files
    have := hsorted.sublist (List.take_sublist 8 _)
    exact this.imp (fun h => by simpa [mtimeLe, decide_eq_true_eq] using h)

/-- C6 witness: with the oldest file raising on POST, the batch stops after
that single file: it is the last (index 0 of a length-1 processed list). -/
theorem C6_witness :
    (0 : Nat) = (_retry_pending postExcA [pfA, pfB]).1.length - 1 :=
  (C6_retry_policy [pfA, pfB] postExcA).2.2.2.2 0 (by decide) (by decide)

/-- C6 counterexample: the older file's POST returns HTTP 500 (not a
success), yet the newer file is still POSTed and deleted: the batch does not
halt at the first file whose POST fails, it halts only on a raised POST. -/
theorem C6_cex :
    (_retry_pending postC6 [pfA, pfB]).1 = [pfA, pfB]
    ∧ (_retry_pending postC6 [pfA, pfB]).2 = [pfB]
    ∧ postC6 pfA = .status 500 := by
  exact ⟨by decide, by decide, by decide⟩

/-! ## C8: cursor cleanup -/

theorem eraseA_map_fst {α : Type} (m : List (String × α)) (k : String) :
    (eraseA m k).map Prod.fst = (m.map Prod.fst).erase k := by
  induction m with
  | nil => rfl
  | cons kv rest ih =>
    by_cases h : kv.1 = k <;> simp [eraseA, List.erase_cons, h, ih]

theorem foldl_eraseA_length (ks : List String) :
    ∀ (m : List (String × Nat)), ks.Nodup → (∀ k ∈ ks, k ∈ m.map Prod.fst) →
      (ks.foldl (fun acc k => eraseA acc k) m).length = m.length - ks.length := by
  induction ks with
  | nil => intro m _ _; simp
  | cons k ks ih =>
    intro m hnd hsub
    simp only [List.foldl_cons]
    have hmem : k ∈ m.map Prod.fst := hsub k (List.mem_cons_self k ks)
    have hlen : (eraseA m k).length = m.length - 1 := by
      have h1 : ((eraseA m k).map Prod.fst).length = ((m.map Prod.fst).erase k).length :=
        congrArg List.length (eraseA_map_fst m k)
      rw [List.length_map, List.length_erase_of_mem hmem, List.length_map] at h1
      exact h1
    have hsub2 : ∀ k2 ∈ ks, k2 ∈ (eraseA m k).map Prod.fst := by
      intro k2 hk2
      rw [eraseA_map_fst]
      refine (List.mem_erase_of_ne ?_).2 (hsub k2 (List.mem_cons_of_mem _ hk2))
      intro he
      exact (List.nodup_cons.1 hnd).1 (he ▸ hk2)
    rw [ih (eraseA m k) (List.nodup_cons.1 hnd).2 hsub2, hlen]
    have hpos : 0 < m.length := by
      have : 0 < (m.map Prod.fst).length := List.length_pos_of_mem hmem
      rwa [List.length_map] at this
    simp only [List.length_cons]
    omega

theorem cleanup_cursors_length (m : List (String × Nat)) (hnd : (m.map Prod.fst).Nodup) :
    (cleanup_cursors m).length
      = if m.length ≤ MAX_FILE_CURSORS then m.length
        else m.length - max 1 (m.length / 3) := by
  unfold cleanup_cursors
  split
  · rfl
  · next hgt =>
    have hperm := insertionSort_perm strLe (m.map Prod.fst)
    have hknd : (insertionSort strLe (m.map Prod.fst)).Nodup := hperm.nodup_iff.2 hnd
    have htake_nd : ((insertionSort strLe (m.map Prod.fst)).take (max 1 (m.length / 3))).Nodup :=
      List.Nodup.sublist (List.take_sublist ..) hknd
    have hsub : ∀ k ∈ (insertionSort strLe (m.map Prod.fst)).take (max 1 (m.length / 3)),
        k ∈ m.map Prod.fst := by
      intro k hk
      exact hperm.mem_iff.1 (List.mem_of_mem_take hk)
    rw [foldl_eraseA_length _ m htake_nd hsub]
    have hkl : (insertionSort strLe (m.map Prod.fst)).length = m.length :=
      hperm.length_eq.trans (List.length_map ..)
    have hrn : max 1 (m.length / 3) ≤ (insertionSort strLe (m.map Prod.fst)).length := by
      rw [hkl]
      have := Nat.div_le_self m.length 3
      unfold MAX_FILE_CURSORS at hgt
      omega
    rw [List.length_take, Nat.min_eq_left hrn]

/-- C8 (amended): the cleanup is a no-op while the cursor table is within
its cap; above the cap it deletes max(1, n // 3) keys, leaving exactly
n - max(1, n // 3) cursors.  That is at most MAX_FILE_CURSORS only when the
pre-call size is at most 1200; it is not a bound for every possible pre-call
size. -/
theorem C8_cleanup_bound (m : List (String × Nat)) (hnd : (m.map Prod.fst).Nodup) :
    (cleanup_cursors m).length
      = (if m.length ≤ MAX_FILE_CURSORS then m.length else m.length - max 1 (m.length / 3))
    ∧ (m.length ≤ 1200 → (cleanup_cursors m).length ≤ MAX_FILE_CURSORS) := by
  refine ⟨cleanup_cursors_length m hnd, ?_⟩
  intro hle
  rw [cleanup_cursors_length m hnd]
  unfold MAX_FILE_CURSORS
  split <;> omega

/-- C8 witness: a one-entry table is untouched and within the cap. -/
theorem C8_witness : (cleanup_cursors [("a", (1 : Nat))]).length ≤ MAX_FILE_CURSORS :=
  (C8_cleanup_bound [("a", 1)] (by decide)).2 (by decide)

/-- C8 counterexample: for a pre-call table of 1201 distinct cursors the
cleanup removes 400 keys and leaves 801 > 800 = MAX_FILE_CURSORS, so the
claimed bound fails for this pre-call size. -/
theorem C8_cex : ¬ ((cleanup_cursors bigCursors).length ≤ MAX_FILE_CURSORS) := by
  have hnd : (bigCursors.map Prod.fst).Nodup := by
    simp only [bigCursors, List.map_map]
    refine List.Nodup.map ?_ (List.nodup_range _)
    intro a b hab
    simp only [Function.comp_apply] at hab
    have h3 := congrArg List.length (congrArg String.data hab)
    simpa using h3
  have hlen : bigCursors.length = 1201 := by
    simp [bigCursors]
  have hc := cleanup_cursors_length bigCursors hnd
  rw [hlen] at hc
  unfold MAX_FILE_CURSORS at hc ⊢
  rw [hc]
  norm_num

/-! ## C9: adaptive sleep bounds -/

theorem nearestStep_some (now : ℚ) (rest : List (String × Session)) :
    ∀ d : ℚ, ∃ d2, rest.foldl (nearestStep now) (some d) = some d2 ∧ d2 ≤ d := by
  induction rest with
  | nil => intro d; exact ⟨d, rfl, le_refl d⟩
  | cons kv tail ih =>
    intro d
    simp only [List.foldl_cons]
    by_cases he : kv.2.exported = true
    · rw [show nearestStep now (some d) kv = some d from by
        unfold nearestStep; rw [if_pos he]]
      exact ih d
    · have he2 : kv.2.exported = false := by simpa using he
      have hstep : nearestStep now (some d) kv
          = if (IDLE_TIMEOUT_SEC : ℚ) - (now - kv.2.last_seen) < d
            then some ((IDLE_TIMEOUT_SEC : ℚ) - (now - kv.2.last_seen)) else some d := by
        unfold nearestStep
        rw [he2]
        simp only [Bool.false_eq_true, if_false]
      rw [hstep]
      by_cases hr : (IDLE_TIMEOUT_SEC : ℚ) - (now - kv.2.last_seen) < d
      · rw [if_pos hr]
        rcases ih ((IDLE_TIMEOUT_SEC : ℚ) - (now - kv.2.last_seen)) with ⟨d2, heq, hle⟩
        exact ⟨d2, heq, le_trans hle (le_of_lt hr)⟩
      · rw [if_neg hr]
        exact ih d

theorem nearestDue_mem_le (now : ℚ) (sessions : List (String × Session))
    (kv : String × Session) (hexp : kv.2.exported = false) :
    ∀ (acc : Option ℚ), kv ∈ sessions →
      ∃ d, sessions.foldl (nearestStep now) acc = some d
        ∧ d ≤ (IDLE_TIMEOUT_SEC : ℚ) - (now - kv.2.last_seen) := by
  induction sessions with
  | nil => intro acc hmem; exact absurd hmem (List.not_mem_nil kv)
  | cons kv2 rest ih =>
    intro acc hmem
    simp only [List.foldl_cons]
    rcases List.mem_cons.1 hmem with heq | hmem2
    · subst heq
      have hstep : ∃ d2, nearestStep now acc kv = some d2
          ∧ d2 ≤ (IDLE_TIMEOUT_SEC : ℚ) - (now - kv.2.last_seen) := by
        unfold nearestStep
        rw [hexp]
        simp only [Bool.false_eq_true, if_false]
        cases acc with
        | none => exact ⟨_, rfl, le_refl _⟩
        | some d =>
          dsimp only
          by_cases hr : (IDLE_TIMEOUT_SEC : ℚ) - (now - kv.2.last_seen) < d
          · rw [if_pos hr]
            exact ⟨_, rfl, le_refl _⟩
          · rw [if_neg hr]
            exact ⟨d, rfl, le_of_not_lt hr⟩
      rcases hstep with ⟨d2, heq2, hle2⟩
      rw [heq2]
      rcases nearestStep_some now rest d2 with ⟨d3, heq3, hle3⟩
      exact ⟨d3, heq3, le_trans hle3 hle2⟩
    · exact ih _ hmem2

/-- C9: the computed sleep is between 1 and POLL_INTERVAL_SEC, and it is
capped by FAST_POLL_INTERVAL_SEC whenever the outbox is non-empty or some
non-exported session has remaining idle time at most the fast-poll
interval. -/
theorem C9_sleep_bounds (st : TrackerState) (outbox : Bool) (now : ℚ) :
    1 ≤ next_sleep_interval st outbox now
    ∧ next_sleep_interval st outbox now ≤ POLL_INTERVAL_SEC
    ∧ ((outbox = true ∨ ∃ kv ∈ st.sessions, kv.2.exported = false ∧
          (IDLE_TIMEOUT_SEC : ℚ) - (now - kv.2.last_seen) ≤ (FAST_POLL_INTERVAL_SEC : ℚ)) →
        next_sleep_interval st outbox now ≤ FAST_POLL_INTERVAL_SEC) := by
  refine ⟨?_, ?_, ?_⟩
  · dsimp only [next_sleep_interval]
    cases hnd : nearestDue st.sessions now with
    | none =>
      dsimp only
      unfold POLL_INTERVAL_SEC FAST_POLL_INTERVAL_SEC
      split_ifs <;> omega
    | some d =>
      dsimp only
      unfold POLL_INTERVAL_SEC FAST_POLL_INTERVAL_SEC
      split_ifs <;> omega
  · dsimp only [next_sleep_interval]
    cases hnd : nearestDue st.sessions now with
    | none =>
      dsimp only
      unfold POLL_INTERVAL_SEC FAST_POLL_INTERVAL_SEC
      split_ifs <;> omega
    | some d =>
      dsimp only
      unfold POLL_INTERVAL_SEC FAST_POLL_INTERVAL_SEC
      split_ifs <;> omega
  · intro h
    rcases h with houtbox | ⟨kv, hmem, hexp, hrem⟩
    · subst houtbox
      dsimp only [next_sleep_interval]
      cases hnd : nearestDue st.sessions now with
      | none =>
        dsimp only
        unfold POLL_INTERVAL_SEC FAST_POLL_INTERVAL_SEC
        split_ifs <;> first | omega | simp_all
      | some d =>
        dsimp only
        unfold POLL_INTERVAL_SEC FAST_POLL_INTERVAL_SEC
        split_ifs <;> first | omega | simp_all
    · rcases nearestDue_mem_le now st.sessions kv hexp none hmem with ⟨d0, hnd, hle⟩
      have hd0 : d0 ≤ (FAST_POLL_INTERVAL_SEC : ℚ) := le_trans hle hrem
      dsimp only [next_sleep_interval]
      rw [show nearestDue st.sessions now = some d0 from hnd]
      dsimp only
      rw [if_pos hd0]
      unfold POLL_INTERVAL_SEC FAST_POLL_INTERVAL_SEC
      split_ifs <;> omega

/-- C9 witness: one non-exported session with remaining idle time 1 second
forces the fast-poll cap. -/
theorem C9_witness : next_sleep_interval stC9 false 299 ≤ FAST_POLL_INTERVAL_SEC :=
  (C9_sleep_bounds stC9 false 299).2.2
    (Or.inr ⟨("s", sessC9), by decide, rfl, by
      show (IDLE_TIMEOUT_SEC : ℚ) - (299 - sessC9.last_seen) ≤ (FAST_POLL_INTERVAL_SEC : ℚ)
      rw [show sessC9.last_seen = 0 from rfl, show IDLE_TIMEOUT_SEC = 300 from rfl,
        show FAST_POLL_INTERVAL_SEC = 3 from by decide]
      norm_num⟩)

/-! ## C3: each tracked session is exported at most once

First, dictionary lemmas for the association-list model, then a
characterization of one sweep, then the trace-level argument. -/

theorem lookupA_cons {α : Type} (kv : String × α) (rest : List (String × α)) (k : String) :
    lookupA (kv :: rest) k = if kv.1 = k then some kv.2 else lookupA rest k := rfl

theorem setA_cons {α : Type} (kv : String × α) (rest : List (String × α)) (k : String) (v : α) :
    setA (kv :: rest) k v = if kv.1 = k then (kv.1, v) :: rest else kv :: setA rest k v := rfl

theorem eraseA_cons {α : Type} (kv : String × α) (rest : List (String × α)) (k : String) :
    eraseA (kv :: rest) k = if kv.1 = k then rest else kv :: eraseA rest k := rfl

theorem lookupA_setA_self {α : Type} (m : List (String × α)) (k : String) (v : α) :
    lookupA (setA m k v) k = some v := by
  induction m with
  | nil => simp [setA, lookupA]
  | cons kv rest ih =>
    rw [setA_cons]
    by_cases h : kv.1 = k
    · rw [if_pos h, lookupA_cons, if_pos h]
    · rw [if_neg h, lookupA_cons, if_neg h]
      exact ih

theorem lookupA_setA_ne {α : Type} (m : List (String × α)) (k k2 : String) (v : α)
    (hne : k2 ≠ k) : lookupA (setA m k2 v) k = lookupA m k := by
  induction m with
  | nil => simp [setA, lookupA, hne]
  | cons kv rest ih =>
    rw [setA_cons]
    by_cases h : kv.1 = k2
    · rw [if_pos h, lookupA_cons, lookupA_cons]
      dsimp only
      by_cases h2 : kv.1 = k
      · exact absurd (h ▸ h2) hne
      · rw [if_neg h2, if_neg h2]
    · rw [if_neg h, lookupA_cons, lookupA_cons, ih]

theorem lookupA_eraseA_ne {α : Type} (m : List (String × α)) (k k2 : String)
    (hne : k2 ≠ k) : lookupA (eraseA m k2) k = lookupA m k := by
  induction m with
  | nil => rfl
  | cons kv rest ih =>
    rw [eraseA_cons]
    by_cases h : kv.1 = k2
    · rw [if_pos h, lookupA_cons, if_neg (by rw [h]; exact hne)]
    · rw [if_neg h, lookupA_cons, lookupA_cons, ih]

theorem lookupA_eq_none {α : Type} (m : List (String × α)) (k : String) :
    lookupA m k = none ↔ k ∉ m.map Prod.fst := by
  induction m with
  | nil => simp [lookupA]
  | cons kv rest ih =>
    rw [lookupA_cons]
    by_cases h : kv.1 = k
    · simp [h]
    · rw [if_neg h, ih, List.map_cons]
      simp only [List.mem_cons, not_or]
      constructor
      · intro hn
        exact ⟨fun he => h he.symm, hn⟩
      · intro hn
        exact hn.2

theorem lookupA_isSome_iff {α : Type} (m : List (String × α)) (k : String) :
    (lookupA m k).isSome = true ↔ k ∈ m.map Prod.fst := by
  rcases hl : lookupA m k with _ | v
  · rw [lookupA_eq_none] at hl
    simp [hl]
  · have hmem : k ∈ m.map Prod.fst := by
      by_contra hmem
      rw [← lookupA_eq_none] at hmem
      rw [hmem] at hl
      exact Option.noConfusion hl
    simp [hmem]

theorem lookupA_eraseA_self {α : Type} (m : List (String × α)) (k : String)
    (hnd : (m.map Prod.fst).Nodup) : lookupA (eraseA m k) k = none := by
  rw [lookupA_eq_none, eraseA_map_fst]
  intro hmem
  exact (hnd.mem_erase_iff.1 hmem).1 rfl

theorem lookupA_append_single_ne {α : Type} (m : List (String × α)) (k k2 : String) (v : α)
    (hne : k2 ≠ k) : lookupA (m ++ [(k2, v)]) k = lookupA m k := by
  induction m with
  | nil => simp [lookupA, hne]
  | cons kv rest ih =>
    rw [List.cons_append, lookupA_cons, lookupA_cons, ih]

theorem keys_setA {α : Type} (m : List (String × α)) (k : String) (v : α)
    (hmem : k ∈ m.map Prod.fst) : (setA m k v).map Prod.fst = m.map Prod.fst := by
  induction m with
  | nil => simp at hmem
  | cons kv rest ih =>
    rw [setA_cons]
    by_cases h : kv.1 = k
    · rw [if_pos h]
      rfl
    · rw [if_neg h, List.map_cons, List.map_cons,
        ih (by
          rcases List.mem_cons.1 hmem with he | hm
          · exact absurd he.symm h
          · exact hm)]

theorem countSid_eq_count (evs : List String) (sid : String) :
    countSid evs sid = evs.count sid := by
  rw [countSid, List.count, List.countP_eq_length_filter]

theorem countSid_cons (e : String) (evs : List String) (sid : String) :
    countSid (e :: evs) sid = (if e = sid then 1 else 0) + countSid evs sid := by
  rw [countSid, countSid, List.filter_cons]
  by_cases h : e = sid
  · rw [if_pos (show (e == sid) = true by simp [h]), if_pos h, List.length_cons]
    omega
  · rw [if_neg (show ¬ (e == sid) = true by simp [h]), if_neg h]
    omega

theorem countSid_append (l1 l2 : List String) (sid : String) :
    countSid (l1 ++ l2) sid = countSid l1 sid + countSid l2 sid := by
  rw [countSid, countSid, countSid, List.filter_append, List.length_append]

theorem countSid_eq_zero (evs : List String) (sid : String) :
    countSid evs sid = 0 ↔ sid ∉ evs := by
  rw [countSid_eq_count]
  exact List.count_eq_zero

theorem sweepOne_key (now : ℚ) (kv : String × Session) : (sweepOne now kv).1.1 = kv.1 := by
  unfold sweepOne
  dsimp only
  repeat' split
  all_goals rfl

theorem sweepOne_exported_stay (now : ℚ) (kv : String × Session)
    (h : kv.2.exported = true) (h2 : ¬ (SESSION_TTL_SEC : ℚ) < now - kv.2.last_seen) :
    sweepOne now kv = (kv, false, none) := by
  unfold sweepOne
  dsimp only
  rw [h, if_pos rfl, if_neg h2]

theorem sweepOne_exported_ttl (now : ℚ) (kv : String × Session)
    (h : kv.2.exported = true) (h2 : (SESSION_TTL_SEC : ℚ) < now - kv.2.last_seen) :
    sweepOne now kv = (kv, true, none) := by
  unfold sweepOne
  dsimp only
  rw [h, if_pos rfl, if_pos h2]

theorem sweepOne_idle (now : ℚ) (kv : String × Session)
    (h : kv.2.exported = false) (h2 : now - kv.2.last_seen ≤ (IDLE_TIMEOUT_SEC : ℚ)) :
    sweepOne now kv = (kv, false, none) := by
  unfold sweepOne
  dsimp only
  rw [h, if_neg (by simp), if_pos h2]

theorem sweepOne_expired (now : ℚ) (kv : String × Session)
    (h : kv.2.exported = false) (h2 : ¬ now - kv.2.last_seen ≤ (IDLE_TIMEOUT_SEC : ℚ)) :
    sweepOne now kv = ((kv.1, { kv.2 with exported := true }), false,
      if exportThreshold kv.2.source ≤ kv.2.messages.length then some kv.1 else none) := by
  unfold sweepOne
  dsimp only
  rw [h, if_neg (by simp), if_neg h2]

theorem sweepSessions_cons (now : ℚ) (kv : String × Session) (rest : List (String × Session)) :
    sweepSessions now (kv :: rest)
      = (if (sweepOne now kv).2.1 then (sweepSessions now rest).1
         else (sweepOne now kv).1 :: (sweepSessions now rest).1,
         match (sweepOne now kv).2.2 with
         | some sid => sid :: (sweepSessions now rest).2
         | none => (sweepSessions now rest).2) := rfl

theorem sweepOne_event (now : ℚ) (kv : String × Session) (e : String)
    (he : (sweepOne now kv).2.2 = some e) :
    e = kv.1 ∧ kv.2.exported = false
      ∧ ¬ now - kv.2.last_seen ≤ (IDLE_TIMEOUT_SEC : ℚ)
      ∧ exportThreshold kv.2.source ≤ kv.2.messages.length := by
  by_cases h : kv.2.exported = true
  · by_cases h2 : (SESSION_TTL_SEC : ℚ) < now - kv.2.last_seen
    · rw [sweepOne_exported_ttl now kv h h2] at he
      exact Option.noConfusion he
    · rw [sweepOne_exported_stay now kv h h2] at he
      exact Option.noConfusion he
  · have hf : kv.2.exported = false := by simpa using h
    by_cases h2 : now - kv.2.last_seen ≤ (IDLE_TIMEOUT_SEC : ℚ)
    · rw [sweepOne_idle now kv hf h2] at he
      exact Option.noConfusion he
    · rw [sweepOne_expired now kv hf h2] at he
      dsimp only at he
      by_cases h3 : exportThreshold kv.2.source ≤ kv.2.messages.length
      · rw [if_pos h3] at he
        exact ⟨(Option.some.inj he).symm, hf, h2, h3⟩
      · rw [if_neg h3] at he
        exact Option.noConfusion he

theorem sweep_keys_sublist (now : ℚ) (l : List (String × Session)) :
    ((sweepSessions now l).1.map Prod.fst).Sublist (l.map Prod.fst) := by
  induction l with
  | nil => exact List.Sublist.refl _
  | cons kv rest ih =>
    rw [sweepSessions_cons]
    cases hrem : (sweepOne now kv).2.1
    · dsimp only
      rw [if_neg (by simp), List.map_cons, List.map_cons, sweepOne_key]
      exact ih.cons₂ kv.1
    · dsimp only
      rw [if_pos rfl, List.map_cons]
      exact ih.cons kv.1

theorem sweep_lookup_idle (now : ℚ) (l : List (String × Session)) (sid : String) (s : Session)
    (hl : lookupA l sid = some s) (hexp : s.exported = false)
    (hid : now - s.last_seen ≤ (IDLE_TIMEOUT_SEC : ℚ)) :
    lookupA (sweepSessions now l).1 sid = some s := by
  induction l with
  | nil => exact absurd hl (by simp [lookupA])
  | cons kv rest ih =>
    rw [sweepSessions_cons]
    rw [lookupA_cons] at hl
    by_cases hk : kv.1 = sid
    · rw [if_pos hk] at hl
      have hs : kv.2 = s := Option.some.inj hl
      rw [sweepOne_idle now kv (by rw [hs]; exact hexp) (by rw [hs]; exact hid)]
      dsimp only
      rw [if_neg (by simp), lookupA_cons, if_pos hk, hs]
    · rw [if_neg hk] at hl
      cases hrem : (sweepOne now kv).2.1
      · dsimp only
        rw [if_neg (by simp), lookupA_cons, if_neg (by rw [sweepOne_key]; exact hk)]
        exact ih hl
      · dsimp only
        rw [if_pos rfl]
        exact ih hl

theorem sweep_lookup_expired (now : ℚ) (l : List (String × Session)) (sid : String)
    (s : Session) (hl : lookupA l sid = some s) (hexp : s.exported = false)
    (hid : ¬ now - s.last_seen ≤ (IDLE_TIMEOUT_SEC : ℚ)) :
    lookupA (sweepSessions now l).1 sid = some { s with exported := true } := by
  induction l with
  | nil => exact absurd hl (by simp [lookupA])
  | cons kv rest ih =>
    rw [sweepSessions_cons]
    rw [lookupA_cons] at hl
    by_cases hk : kv.1 = sid
    · rw [if_pos hk] at hl
      have hs : kv.2 = s := Option.some.inj hl
      rw [sweepOne_expired now kv (by rw [hs]; exact hexp) (by rw [hs]; exact hid)]
      dsimp only
      rw [if_neg (by simp), lookupA_cons, if_pos hk, hs]
    · rw [if_neg hk] at hl
      cases hrem : (sweepOne now kv).2.1
      · dsimp only
        rw [if_neg (by simp), lookupA_cons, if_neg (by rw [sweepOne_key]; exact hk)]
        exact ih hl
      · dsimp only
        rw [if_pos rfl]
        exact ih hl

theorem sweep_lookup_exported (now : ℚ) (l : List (String × Session)) (sid : String)
    (s : Session) (hnd : (l.map Prod.fst).Nodup)
    (hl : lookupA l sid = some s) (hexp : s.exported = true) :
    lookupA (sweepSessions now l).1 sid = some s
    ∨ lookupA (sweepSessions now l).1 sid = none := by
  induction l with
  | nil => exact absurd hl (by simp [lookupA])
  | cons kv rest ih =>
    rcases List.nodup_cons.1 hnd with ⟨hh, ht⟩
    rw [sweepSessions_cons]
    rw [lookupA_cons] at hl
    by_cases hk : kv.1 = sid
    · rw [if_pos hk] at hl
      have hs : kv.2 = s := Option.some.inj hl
      by_cases httl : (SESSION_TTL_SEC : ℚ) < now - kv.2.last_seen
      · rw [sweepOne_exported_ttl now kv (by rw [hs]; exact hexp) httl]
        dsimp only
        rw [if_pos rfl]
        right
        rw [lookupA_eq_none]
        intro hmem
        exact (hk ▸ hh) ((sweep_keys_sublist now rest).mem hmem)
      · rw [sweepOne_exported_stay now kv (by rw [hs]; exact hexp) httl]
        dsimp only
        rw [if_neg (by simp), lookupA_cons, if_pos hk, hs]
        exact Or.inl rfl
    · rw [if_neg hk] at hl
      cases hrem : (sweepOne now kv).2.1
      · dsimp only
        rw [if_neg (by simp), lookupA_cons, if_neg (by rw [sweepOne_key]; exact hk)]
        exact ih ht hl
      · dsimp only
        rw [if_pos rfl]
        exact ih ht hl

theorem sweep_events_not_mem (now : ℚ) (l : List (String × Session)) (sid : String)
    (hmem : sid ∉ l.map Prod.fst) : countSid (sweepSessions now l).2 sid = 0 := by
  induction l with
  | nil => rfl
  | cons kv rest ih =>
    rw [sweepSessions_cons]
    have hrest := ih (fun h => hmem (List.mem_cons_of_mem _ h))
    have hne : kv.1 ≠ sid := fun h => hmem (h ▸ List.mem_cons_self _ _)
    cases hev : (sweepOne now kv).2.2 with
    | none =>
      dsimp only
      exact hrest
    | some e =>
      dsimp only
      rw [countSid_cons,
        if_neg (fun h => hne (((sweepOne_event now kv e hev).1).symm.trans h)), hrest]

theorem sweep_events_count (now : ℚ) (l : List (String × Session)) (sid : String)
    (hnd : (l.map Prod.fst).Nodup) : countSid (sweepSessions now l).2 sid ≤ 1 := by
  induction l with
  | nil => exact Nat.zero_le 1
  | cons kv rest ih =>
    rcases List.nodup_cons.1 hnd with ⟨hh, ht⟩
    rw [sweepSessions_cons]
    cases hev : (sweepOne now kv).2.2 with
    | none =>
      dsimp only
      exact ih ht
    | some e =>
      dsimp only
      rw [countSid_cons]
      by_cases he : e = sid
      · have hkey : kv.1 = sid := ((sweepOne_event now kv e hev).1).symm.trans he
        rw [if_pos he, sweep_events_not_mem now rest sid (hkey ▸ hh)]
      · rw [if_neg he]
        have := ih ht
        omega

theorem sweep_fires (now : ℚ) (l : List (String × Session)) (sid : String) (s : Session)
    (hl : lookupA l sid = some s) (hexp : s.exported = false)
    (hid : ¬ now - s.last_seen ≤ (IDLE_TIMEOUT_SEC : ℚ))
    (hth : exportThreshold s.source ≤ s.messages.length) :
    sid ∈ (sweepSessions now l).2 := by
  induction l with
  | nil => exact absurd hl (by simp [lookupA])
  | cons kv rest ih =>
    rw [sweepSessions_cons]
    rw [lookupA_cons] at hl
    by_cases hk : kv.1 = sid
    · rw [if_pos hk] at hl
      have hs : kv.2 = s := Option.some.inj hl
      rw [sweepOne_expired now kv (by rw [hs]; exact hexp) (by rw [hs]; exact hid)]
      dsimp only
      rw [if_pos (by rw [hs]; exact hth)]
      exact hk ▸ List.mem_cons_self _ _
    · rw [if_neg hk] at hl
      cases hev : (sweepOne now kv).2.2 with
      | none =>
        dsimp only
        exact ih hl
      | some e =>
        dsimp only
        exact List.mem_cons_of_mem e (ih hl)

theorem sweep_event_source (now : ℚ) (l : List (String × Session)) (sid : String)
    (hnd : (l.map Prod.fst).Nodup) (hmem : sid ∈ (sweepSessions now l).2) :
    ∃ s, lookupA l sid = some s ∧ s.exported = false
      ∧ ¬ now - s.last_seen ≤ (IDLE_TIMEOUT_SEC : ℚ)
      ∧ exportThreshold s.source ≤ s.messages.length := by
  induction l with
  | nil => exact absurd hmem (by simp [sweepSessions])
  | cons kv rest ih =>
    rcases List.nodup_cons.1 hnd with ⟨hh, ht⟩
    rw [sweepSessions_cons] at hmem
    cases hev : (sweepOne now kv).2.2 with
    | none =>
      rw [hev] at hmem
      dsimp only at hmem
      by_cases hk : kv.1 = sid
      · have h0 := sweep_events_not_mem now rest sid (hk ▸ hh)
        rw [countSid_eq_zero] at h0
        exact absurd hmem h0
      · rcases ih ht hmem with ⟨s, hl, h1, h2, h3⟩
        exact ⟨s, by rw [lookupA_cons, if_neg hk]; exact hl, h1, h2, h3⟩
    | some e =>
      rw [hev] at hmem
      dsimp only at hmem
      rcases List.mem_cons.1 hmem with heq | hmem2
      · rcases sweepOne_event now kv e hev with ⟨hek, h1, h2, h3⟩
        have hk : kv.1 = sid := hek ▸ heq.symm
        exact ⟨kv.2, by rw [lookupA_cons, if_pos hk], h1, h2, h3⟩
      · by_cases hk : kv.1 = sid
        · have h0 := sweep_events_not_mem now rest sid (hk ▸ hh)
          rw [countSid_eq_zero] at h0
          exact absurd hmem2 h0
        · rcases ih ht hmem2 with ⟨s, hl, h1, h2, h3⟩
          exact ⟨s, by rw [lookupA_cons, if_neg hk]; exact hl, h1, h2, h3⟩

theorem evict_cases (l : List (String × Session)) :
    (∃ k0, _evict_oldest l = eraseA l k0) ∨ _evict_oldest l = l := by
  unfold _evict_oldest
  dsimp only
  cases h1 : minByLastSeen (l.filter (fun kv => kv.2.exported)) with
  | some k => exact Or.inl ⟨k, rfl⟩
  | none =>
    cases h2 : minByLastSeen l with
    | some k => exact Or.inl ⟨k, rfl⟩
    | none => exact Or.inr rfl

theorem evict_keys_sublist (l : List (String × Session)) :
    ((_evict_oldest l).map Prod.fst).Sublist (l.map Prod.fst) := by
  rcases evict_cases l with ⟨k0, he⟩ | he
  · rw [he, eraseA_map_fst]
    exact List.erase_sublist _ _
  · rw [he]

theorem evict_lookup (l : List (String × Session)) (sid : String) (s2 : Session)
    (hnd : (l.map Prod.fst).Nodup)
    (hl2 : lookupA (_evict_oldest l) sid = some s2) : lookupA l sid = some s2 := by
  rcases evict_cases l with ⟨k0, he⟩ | he
  · rw [he] at hl2
    by_cases hk : k0 = sid
    · subst hk
      rw [lookupA_eraseA_self l _ hnd] at hl2
      exact Option.noConfusion hl2
    · rwa [lookupA_eraseA_ne l sid k0 hk] at hl2
  · rwa [he] at hl2

theorem upsert_flag (hash : List Char → String) (st : TrackerState)
    (sid2 source : String) (text : List Char) (now : ℚ) (sid : String) (s : Session)
    (hnd : (st.sessions.map Prod.fst).Nodup)
    (hl : lookupA st.sessions sid = some s) :
    ∀ s2, lookupA (_upsert_session hash st sid2 source text now).sessions sid = some s2 →
      s2.exported = s.exported := by
  intro s2 hl2
  unfold _upsert_session at hl2
  dsimp only at hl2
  by_cases hkn : (lookupA st.sessions sid2).isSome = true
  · rw [if_pos hkn] at hl2
    rcases hfind : lookupA st.sessions sid2 with _ | sess
    · rw [hfind] at hkn
      simp at hkn
    · rw [hfind] at hl2
      dsimp only at hl2
      by_cases hdig : hash text = sess.last_hash
      · rw [if_pos hdig] at hl2
        dsimp only at hl2
        rw [hl] at hl2
        rw [← Option.some.inj hl2]
      · rw [if_neg hdig] at hl2
        dsimp only at hl2
        by_cases hks : sid2 = sid
        · subst hks
          rw [lookupA_setA_self] at hl2
          have hss : sess = s := Option.some.inj (hfind.symm.trans hl)
          rw [← Option.some.inj hl2]
          dsimp only
          rw [hss]
        · rw [lookupA_setA_ne _ _ _ _ hks, hl] at hl2
          rw [← Option.some.inj hl2]
  · rw [if_neg hkn] at hl2
    have hks : sid2 ≠ sid := by
      intro he
      rw [he, hl] at hkn
      simp at hkn
    have hbase : ∀ s3, lookupA
        ((if MAX_TRACKED_SESSIONS ≤ st.sessions.length then _evict_oldest st.sessions
          else st.sessions) ++ [(sid2, newSession source now)]) sid = some s3 →
        s3 = s := by
      intro s3 h3
      rw [lookupA_append_single_ne _ _ _ _ hks] at h3
      by_cases hcap : MAX_TRACKED_SESSIONS ≤ st.sessions.length
      · rw [if_pos hcap] at h3
        have := evict_lookup st.sessions sid s3 hnd h3
        rw [hl] at this
        exact (Option.some.inj this).symm
      · rw [if_neg hcap] at h3
        rw [hl] at h3
        exact (Option.some.inj h3).symm
    rcases hfind : lookupA
        ((if MAX_TRACKED_SESSIONS ≤ st.sessions.length then _evict_oldest st.sessions
          else st.sessions) ++ [(sid2, newSession source now)]) sid2 with _ | sess
    · rw [hfind] at hl2
      dsimp only at hl2
      rw [hbase s2 hl2]
    · rw [hfind] at hl2
      dsimp only at hl2
      by_cases hdig : hash text = sess.last_hash
      · rw [if_pos hdig] at hl2
        dsimp only at hl2
        rw [hbase s2 hl2]
      · rw [if_neg hdig] at hl2
        dsimp only at hl2
        rw [lookupA_setA_ne _ _ _ _ hks] at hl2
        rw [hbase s2 hl2]

theorem upsert_nodup (hash : List Char → String) (st : TrackerState)
    (sid2 source : String) (text : List Char) (now : ℚ)
    (hnd : (st.sessions.map Prod.fst).Nodup) :
    ((_upsert_session hash st sid2 source text now).sessions.map Prod.fst).Nodup := by
  unfold _upsert_session
  dsimp only
  by_cases hkn : (lookupA st.sessions sid2).isSome = true
  · rw [if_pos hkn]
    rcases hfind : lookupA st.sessions sid2 with _ | sess
    · dsimp only
      exact hnd
    · dsimp only
      by_cases hdig : hash text = sess.last_hash
      · rw [if_pos hdig]
        exact hnd
      · rw [if_neg hdig]
        dsimp only
        rw [keys_setA _ _ _ ((lookupA_isSome_iff _ _).1 hkn)]
        exact hnd
  · rw [if_neg hkn]
    have hnot : sid2 ∉ st.sessions.map Prod.fst := by
      rw [← lookupA_eq_none]
      cases hx : lookupA st.sessions sid2
      · rfl
      · rw [hx] at hkn
        simp at hkn
    have hbsub : (((if MAX_TRACKED_SESSIONS ≤ st.sessions.length then _evict_oldest st.sessions
        else st.sessions)).map Prod.fst).Sublist (st.sessions.map Prod.fst) := by
      split
      · exact evict_keys_sublist _
      · exact List.Sublist.refl _
    have hbnd := List.Nodup.sublist hbsub hnd
    have hbn2 : sid2 ∉ (if MAX_TRACKED_SESSIONS ≤ st.sessions.length then
        _evict_oldest st.sessions else st.sessions).map Prod.fst :=
      fun h => hnot (hbsub.subset h)
    have h0 : (((if MAX_TRACKED_SESSIONS ≤ st.sessions.length then _evict_oldest st.sessions
        else st.sessions) ++ [(sid2, newSession source now)]).map Prod.fst).Nodup := by
      rw [List.map_append]
      rw [List.nodup_append]
      refine ⟨hbnd, List.nodup_singleton _, ?_⟩
      intro a ha hb
      rw [List.map_singleton, List.mem_singleton] at hb
      dsimp only at hb
      exact hbn2 (hb ▸ ha)
    rcases hfind : lookupA
        ((if MAX_TRACKED_SESSIONS ≤ st.sessions.length then _evict_oldest st.sessions
          else st.sessions) ++ [(sid2, newSession source now)]) sid2 with _ | sess
    · dsimp only
      exact h0
    · dsimp only
      by_cases hdig : hash text = sess.last_hash
      · rw [if_pos hdig]
        exact h0
      · rw [if_neg hdig]
        dsimp only
        rw [keys_setA _ _ _ ((lookupA_isSome_iff _ _).1 (by rw [hfind]; rfl))]
        exact h0

theorem applyOp_nodup (hash : List Char → String) (st : TrackerState) (op : TrackerOp)
    (hnd : (st.sessions.map Prod.fst).Nodup) :
    (((applyOp hash st op).1).sessions.map Prod.fst).Nodup := by
  cases op with
  | upsertOp sid source text now => exact upsert_nodup hash st sid source text now hnd
  | sweepOp now =>
    dsimp only [applyOp, check_and_export_idle]
    exact List.Nodup.sublist (sweep_keys_sublist now st.sessions) hnd

theorem applyOp_flag_mono (hash : List Char → String) (st : TrackerState) (op : TrackerOp)
    (sid : String) (s : Session) (hnd : (st.sessions.map Prod.fst).Nodup)
    (hl : lookupA st.sessions sid = some s) (hexp : s.exported = true) :
    ∀ s2, lookupA ((applyOp hash st op).1).sessions sid = some s2 → s2.exported = true := by
  cases op with
  | upsertOp sid2 source text now =>
    intro s2 h2
    rw [upsert_flag hash st sid2 source text now sid s hnd hl s2 h2]
    exact hexp
  | sweepOp now =>
    intro s2 h2
    dsimp only [applyOp, check_and_export_idle] at h2
    rcases sweep_lookup_exported now st.sessions sid s hnd hl hexp with h | h
    · rw [h] at h2
      rw [← Option.some.inj h2]
      exact hexp
    · rw [h] at h2
      exact Option.noConfusion h2

theorem applyOp_no_export_when_flag (hash : List Char → String) (st : TrackerState)
    (op : TrackerOp) (sid : String) (s : Session)
    (hnd : (st.sessions.map Prod.fst).Nodup)
    (hl : lookupA st.sessions sid = some s) (hexp : s.exported = true) :
    countSid (applyOp hash st op).2 sid = 0 := by
  cases op with
  | upsertOp sid2 source text now => rfl
  | sweepOp now =>
    dsimp only [applyOp, check_and_export_idle]
    rw [countSid_eq_zero]
    intro hmem
    rcases sweep_event_source now st.sessions sid hnd hmem with ⟨s2, hl2, hexp2, _, _⟩
    rw [hl] at hl2
    rw [← Option.some.inj hl2] at hexp2
    rw [hexp] at hexp2
    exact Bool.noConfusion hexp2

theorem runTrace_cons (hash : List Char → String) (st : TrackerState)
    (op : TrackerOp) (ops : List TrackerOp) :
    runTrace hash st (op :: ops)
      = ((runTrace hash (applyOp hash st op).1 ops).1,
         (applyOp hash st op).2 ++ (runTrace hash (applyOp hash st op).1 ops).2) := rfl

theorem runTrace_append (hash : List Char → String) (l1 l2 : List TrackerOp) :
    ∀ st : TrackerState,
      runTrace hash st (l1 ++ l2)
        = ((runTrace hash (runTrace hash st l1).1 l2).1,
           (runTrace hash st l1).2 ++ (runTrace hash (runTrace hash st l1).1 l2).2) := by
  induction l1 with
  | nil =>
    intro st
    simp [runTrace]
  | cons op rest ih =>
    intro st
    rw [List.cons_append, runTrace_cons, ih, runTrace_cons]
    simp [List.append_assoc]

theorem runTrace_nodup (hash : List Char → String) (ops : List TrackerOp) :
    ∀ st : TrackerState, (st.sessions.map Prod.fst).Nodup →
      (((runTrace hash st ops).1).sessions.map Prod.fst).Nodup := by
  induction ops with
  | nil => intro st h; exact h
  | cons op rest ih =>
    intro st h
    exact ih _ (applyOp_nodup hash st op h)

theorem presentAlong_head (hash : List Char → String) (sid : String) (st : TrackerState)
    (ops : List TrackerOp) (h : presentAlong hash sid st ops = true) :
    (lookupA st.sessions sid).isSome = true := by
  cases ops with
  | nil => exact h
  | cons op rest =>
    rw [presentAlong, Bool.and_eq_true] at h
    exact h.1

theorem presentAlong_tail (hash : List Char → String) (sid : String) (st : TrackerState)
    (op : TrackerOp) (ops : List TrackerOp)
    (h : presentAlong hash sid st (op :: ops) = true) :
    presentAlong hash sid (applyOp hash st op).1 ops = true := by
  rw [presentAlong, Bool.and_eq_true] at h
  exact h.2

theorem trace_zero_after_flag (hash : List Char → String) (sid : String)
    (ops : List TrackerOp) :
    ∀ (st : TrackerState) (s : Session),
      (st.sessions.map Prod.fst).Nodup →
      lookupA st.sessions sid = some s → s.exported = true →
      presentAlong hash sid st ops = true →
      countSid (runTrace hash st ops).2 sid = 0 := by
  induction ops with
  | nil => intro st s _ _ _ _; rfl
  | cons op rest ih =>
    intro st s hnd hl hexp hp
    rw [runTrace_cons]
    dsimp only
    rw [countSid_append]
    have h1 : countSid (applyOp hash st op).2 sid = 0 :=
      applyOp_no_export_when_flag hash st op sid s hnd hl hexp
    have hp2 := presentAlong_tail hash sid st op rest hp
    have hsome := presentAlong_head hash sid _ rest hp2
    rcases Option.isSome_iff_exists.1 hsome with ⟨s2, hl2⟩
    have hexp2 : s2.exported = true :=
      applyOp_flag_mono hash st op sid s hnd hl hexp s2 hl2
    rw [h1, ih _ s2 (applyOp_nodup hash st op hnd) hl2 hexp2 hp2]

theorem trace_at_most_one (hash : List Char → String) (sid : String) (ops : List TrackerOp) :
    ∀ st : TrackerState, (st.sessions.map Prod.fst).Nodup →
      presentAlong hash sid st ops = true →
      countSid (runTrace hash st ops).2 sid ≤ 1 := by
  induction ops with
  | nil =>
    intro st _ _
    rw [show countSid (runTrace hash st []).2 sid = 0 from rfl]
    omega
  | cons op rest ih =>
    intro st hnd hp
    rw [runTrace_cons]
    dsimp only
    rw [countSid_append]
    have hnd2 := applyOp_nodup hash st op hnd
    have hp2 := presentAlong_tail hash sid st op rest hp
    by_cases hz : countSid (applyOp hash st op).2 sid = 0
    · rw [hz]
      have := ih _ hnd2 hp2
      omega
    · have hmem : sid ∈ (applyOp hash st op).2 := by
        by_contra hm
        exact hz ((countSid_eq_zero _ _).2 hm)
      cases op with
      | upsertOp s1 s2 t n => exact absurd hmem (by simp [applyOp])
      | sweepOp t =>
        dsimp only [applyOp, check_and_export_idle] at hmem hz hp2 hnd2 ⊢
        rcases sweep_event_source t st.sessions sid hnd hmem with ⟨s, hl, hexp, hid, hth⟩
        have hafter := sweep_lookup_expired t st.sessions sid s hl hexp hid
        have hzero := trace_zero_after_flag hash sid rest _ { s with exported := true }
          hnd2 hafter rfl hp2
        have hone := sweep_events_count t st.sessions sid hnd
        omega

theorem trace_never_below (hash : List Char → String) (sid : String) (ops : List TrackerOp) :
    ∀ st : TrackerState, (st.sessions.map Prod.fst).Nodup →
      (∀ pre t post (s : Session), ops = pre ++ TrackerOp.sweepOp t :: post →
         lookupA ((runTrace hash st pre).1).sessions sid = some s →
         s.exported = false → ¬ t - s.last_seen ≤ (IDLE_TIMEOUT_SEC : ℚ) →
         s.messages.length < exportThreshold s.source) →
      countSid (runTrace hash st ops).2 sid = 0 := by
  induction ops with
  | nil => intro st _ _; rfl
  | cons op rest ih =>
    intro st hnd hc
    rw [runTrace_cons]
    dsimp only
    rw [countSid_append]
    have hrest := ih (applyOp hash st op).1 (applyOp_nodup hash st op hnd) ?_
    · have hhead : countSid (applyOp hash st op).2 sid = 0 := by
        cases op with
        | upsertOp s1 s2 t n => rfl
        | sweepOp t =>
          rw [countSid_eq_zero]
          intro hmem
          dsimp only [applyOp, check_and_export_idle] at hmem
          rcases sweep_event_source t st.sessions sid hnd hmem with ⟨s, hl, hexp, hid, hth⟩
          have := hc [] t rest s rfl hl hexp hid
          omega
      rw [hhead, hrest]
    · intro pre t post s hops hl hexp hid
      exact hc (op :: pre) t post s (by rw [List.cons_append, hops]) hl hexp hid

/-- C3: over any operation trace during which the session stays tracked,
the idle sweep exports it at most once; it exports it exactly once when some
sweep observes it unexported, idle-expired and at or above the message
threshold; it never exports it when every sweep that observes it unexported
and idle-expired sees it below the threshold; and any sweep that observes it
unexported and idle-expired sets its exported flag. -/
theorem C3_export_once (hash : List Char → String) (st : TrackerState)
    (ops : List TrackerOp) (sid : String)
    (hnd : (st.sessions.map Prod.fst).Nodup) :
    (presentAlong hash sid st ops = true → countSid (runTrace hash st ops).2 sid ≤ 1)
    ∧ (∀ pre t post (s : Session), ops = pre ++ TrackerOp.sweepOp t :: post →
        presentAlong hash sid st ops = true →
        lookupA ((runTrace hash st pre).1).sessions sid = some s →
        s.exported = false → ¬ t - s.last_seen ≤ (IDLE_TIMEOUT_SEC : ℚ) →
        exportThreshold s.source ≤ s.messages.length →
        countSid (runTrace hash st ops).2 sid = 1)
    ∧ ((∀ pre t post (s : Session), ops = pre ++ TrackerOp.sweepOp t :: post →
          lookupA ((runTrace hash st pre).1).sessions sid = some s →
          s.exported = false → ¬ t - s.last_seen ≤ (IDLE_TIMEOUT_SEC : ℚ) →
          s.messages.length < exportThreshold s.source) →
        countSid (runTrace hash st ops).2 sid = 0)
    ∧ (∀ pre t post (s : Session), ops = pre ++ TrackerOp.sweepOp t :: post →
        lookupA ((runTrace hash st pre).1).sessions sid = some s →
        s.exported = false → ¬ t - s.last_seen ≤ (IDLE_TIMEOUT_SEC : ℚ) →
        lookupA ((runTrace hash st (pre ++ [TrackerOp.sweepOp t])).1).sessions sid
          = some { s with exported := true }) := by
  refine ⟨trace_at_most_one hash sid ops st hnd, ?_, trace_never_below hash sid ops st hnd, ?_⟩
  · intro pre t post s hops hp hl hexp hid hth
    have hle := trace_at_most_one hash sid ops st hnd hp
    subst hops
    rw [runTrace_append] at hle ⊢
    dsimp only at hle ⊢
    rw [countSid_append, runTrace_cons] at hle ⊢
    dsimp only at hle ⊢
    rw [countSid_append] at hle ⊢
    have hfire : sid ∈ (applyOp hash (runTrace hash st pre).1 (TrackerOp.sweepOp t)).2 := by
      dsimp only [applyOp, check_and_export_idle]
      exact sweep_fires t _ sid s hl hexp hid hth
    have hpos : countSid (applyOp hash (runTrace hash st pre).1 (TrackerOp.sweepOp t)).2 sid ≠ 0 :=
      fun h => ((countSid_eq_zero _ _).1 h) hfire
    omega
  · intro pre t post s hops hl hexp hid
    rw [runTrace_append]
    dsimp only
    rw [runTrace_cons]
    dsimp only [applyOp, check_and_export_idle]
    exact sweep_lookup_expired t _ sid s hl hexp hid

/-- C3 witness: a single sweep at time 1000 over one non-exported
two-message claude_code session last seen at 0 exports it exactly once. -/
theorem C3_witness : countSid (runTrace hash0 stC3 opsC3).2 "s" = 1 := by
  have hid : ¬ (1000 : ℚ) - sessW.last_seen ≤ (IDLE_TIMEOUT_SEC : ℚ) := by
    rw [show sessW.last_seen = (0 : ℚ) from rfl, show IDLE_TIMEOUT_SEC = 300 from rfl]
    norm_num
  have hpres : presentAlong hash0 "s" stC3 opsC3 = true := by
    have hafter := sweep_lookup_expired 1000 stC3.sessions "s" sessW rfl rfl hid
    show ((lookupA stC3.sessions "s").isSome
      && presentAlong hash0 "s" (applyOp hash0 stC3 (TrackerOp.sweepOp 1000)).1 []) = true
    rw [show lookupA stC3.sessions "s" = some sessW from rfl]
    show (true && (lookupA ((applyOp hash0 stC3 (TrackerOp.sweepOp 1000)).1).sessions "s").isSome)
      = true
    rw [show ((applyOp hash0 stC3 (TrackerOp.sweepOp 1000)).1).sessions
        = (sweepSessions 1000 stC3.sessions).1 from rfl, hafter]
    rfl
  exact (C3_export_once hash0 stC3 opsC3 "s" (by decide)).2.1 [] 1000 [] sessW rfl hpres rfl
    rfl hid (by decide)

end Viking
